import Mathlib

/-!
# Weather: log suppressor, cache migration and address parser

A shallow embedding of

* `internal/logging/suppress.go` (`LogSuppressor`),
* `internal/geo/location/convert.go` (`Cache.ConvertCache`),
* the address parser exercised by `internal/geo/ip/ip_test.go`,

together with the properties proved about them.

Go strings are byte sequences, so they are embedded as lists of bytes.
-/

namespace Weather

/-! ## Go strings and the `strings` package -/

/-- A Go `string` (and a `[]byte`): an arbitrary sequence of bytes. -/
abbrev GoString := List UInt8

/-- The bytes of an ASCII literal, used to write concrete inputs. -/
def lit (s : String) : GoString := s.toList.map (fun c => UInt8.ofNat c.toNat)

/-- Go `strings.HasPrefix(s, p)`: `len(s) >= len(p) && s[:len(p)] == p`. -/
def HasPrefix : GoString → GoString → Bool
  | _, [] => true
  | [], _ :: _ => false
  | a :: s, b :: p => a == b && HasPrefix s p

/-- Go `strings.Index(s, substr)`: the offset of the first instance of `substr`
in `s`; `none` stands for the result `-1`. -/
def Index : GoString → GoString → Option Nat
  | [], substr => if HasPrefix [] substr then some 0 else none
  | a :: s, substr =>
    if HasPrefix (a :: s) substr then some 0 else (Index s substr).map (· + 1)

/-- Go `strings.Contains(s, substr)`: `Index(s, substr) >= 0`. -/
def Contains (s substr : GoString) : Bool := (Index s substr).isSome

/-- The size that Go `utf8.DecodeRuneInString` reports for a second byte `s1`
checked against the accept range `lo..hi` and the continuation bytes that
follow: the sequence length `sz` when well formed, `1` otherwise. -/
def runeSizeMulti (sz : Nat) (lo hi : UInt8) (rest : GoString) : Nat :=
  if rest.length + 1 < sz then 1 else
  match rest with
  | [] => 1
  | s1 :: rest1 =>
    if s1 < lo || hi < s1 then 1 else
    if sz ≤ 2 then 2 else
    match rest1 with
    | [] => 1
    | s2 :: rest2 =>
      if s2 < 0x80 || 0xBF < s2 then 1 else
      if sz ≤ 3 then 3 else
      match rest2 with
      | [] => 1
      | s3 :: _ => if s3 < 0x80 || 0xBF < s3 then 1 else 4

/-- Go `utf8.DecodeRuneInString(s)`, second result: the width in bytes of the
first rune of `s`; `0` for the empty string, `1` for an invalid encoding. -/
def runeSize : GoString → Nat
  | [] => 0
  | s0 :: rest =>
    if s0 < 0x80 then 1
    else if s0 < 0xC2 then 1
    else if s0 < 0xE0 then runeSizeMulti 2 0x80 0xBF rest
    else if s0 == 0xE0 then runeSizeMulti 3 0xA0 0xBF rest
    else if s0 < 0xED then runeSizeMulti 3 0x80 0xBF rest
    else if s0 == 0xED then runeSizeMulti 3 0x80 0x9F rest
    else if s0 < 0xF0 then runeSizeMulti 3 0x80 0xBF rest
    else if s0 == 0xF0 then runeSizeMulti 4 0x90 0xBF rest
    else if s0 < 0xF4 then runeSizeMulti 4 0x80 0xBF rest
    else if s0 == 0xF4 then runeSizeMulti 4 0x80 0x8F rest
    else 1

/-- Go `strings.explode(s, -1)`: one string per UTF-8 sequence of `s`, invalid
bytes sliced one by one. The loop runs at most `len(s)` times (`fuel`). -/
def explode : Nat → GoString → List GoString
  | 0, _ => []
  | fuel + 1, s =>
    if s = [] then [] else s.take (runeSize s) :: explode fuel (s.drop (runeSize s))

/-- The loop of Go `strings.genSplit(s, sep, 0, -1)` for a non-empty `sep`:
cut at the first instance of `sep`, continue behind it, and put what remains
in the last slot. The loop counter `n - 1 = Count(s, sep) ≤ len(s)` is `fuel`. -/
def genSplit : Nat → GoString → GoString → List GoString
  | 0, s, _ => [s]
  | fuel + 1, s, sep =>
    match Index s sep with
    | none => [s]
    | some m => s.take m :: genSplit fuel (s.drop (m + sep.length)) sep

/-- Go `strings.Split(s, sep)`. -/
def Split (s sep : GoString) : List GoString :=
  if sep = [] then explode s.length s else genSplit s.length s sep

/-! ## `logging.LogSuppressor` -/

/-- The `LogSuppressor` struct (the file handle and the mutex are not data). -/
structure LogSuppressor where
  filename : GoString
  suppress : List GoString
  linePrefix : GoString

/-- The function `NewLogSuppressor`. -/
def NewLogSuppressor (filename : GoString) (suppress : List GoString)
    (linePrefix : GoString) : LogSuppressor :=
  { filename := filename, suppress := suppress, linePrefix := linePrefix }

/-- The `*os.File` a write is issued on. -/
inductive Sink where
  | Stdin
  | Stdout
  | Stderr
  | LogFile
  deriving DecidableEq

/-- The function literal inside `Write`: whether some entry of `suppress`
is contained in `line`. -/
def suppressed : List GoString → GoString → Bool
  | [], _ => false
  | s :: rest, line => if Contains line s then true else suppressed rest line

/-- The `for _, line := range lines` loop of `Write`, threading `output`. -/
def writeLoop (suppress : List GoString) : List GoString → GoString → GoString
  | [], output => output
  | line :: lines, output =>
    if suppressed suppress line then writeLoop suppress lines output
    else writeLoop suppress lines (output ++ line)

/-- The method `LogSuppressor.Write`: the file the single write call is issued
on and the bytes handed to it. -/
def LogSuppressor.Write (ls : LogSuppressor) (p : GoString) : Sink × GoString :=
  if ls.filename = [] then (Sink.Stdin, p)
  else (Sink.LogFile, writeLoop ls.suppress (Split p ls.linePrefix) [])

/-! ## `location.Cache.ConvertCache` -/

/-- Modelled from the spec: the `Location` struct is declared in a file that
is not at hand; its fields are those of the spec's data model and of the table
created by `createTable` (name, displayName, lat, lon, timezone, all text). -/
structure Location where
  Name : GoString
  DisplayName : GoString
  Lat : GoString
  Lon : GoString
  Timezone : GoString
  deriving DecidableEq

/-- The errors the run distinguishes. -/
inductive Error where
  /-- The value `sql.ErrNoRows`. -/
  | ErrNoRows
  /-- An insert hit the primary key `name` of the table. -/
  | DuplicateKey
  /-- An insert was given no row: the statement has no values to insert. -/
  | MissingValues
  /-- Any other failure reported by the OS or the DB layer. -/
  | Fault
  deriving DecidableEq

/-- One path returned by `filepath.Glob`, with what the outside world answers
while the loop body runs on it: the result of `c.Read(filepath.Base(file))`
(`none` for an error), whether the existence query fails with an error that is
not `sql.ErrNoRows`, and whether a bulk insert issued in this iteration fails
for a reason other than the primary key. -/
structure CacheFile where
  read : Option Location
  selectFault : Bool
  insertFault : Bool
  deriving DecidableEq

/-- What the outside world answers during one `ConvertCache` call. -/
structure World where
  /-- The call `removeDBIfExists(dbfile)` fails. -/
  removeFault : Bool
  /-- The call `godb.Open` fails. -/
  openFault : Bool
  /-- The call `createTable` fails. -/
  createFault : Bool
  /-- The call `filepath.Glob` fails. -/
  globFault : Bool
  /-- The paths returned by `filepath.Glob`, in the order returned. -/
  files : List CacheFile
  /-- The bulk insert after the loop fails for a reason other than the key. -/
  lastInsertFault : Bool
  deriving DecidableEq

/-- The error of `db.Select(&singleLocation).Where("name = ?", name).Do()` on a
table with the given rows: `nil` (`none`) when a row has that name,
`sql.ErrNoRows` when none has, another error when the query itself fails. -/
def selectErr (table : List Location) (name : GoString) (fault : Bool) : Option Error :=
  if fault then some Error.Fault
  else if table.any (fun row => row.Name == name) then none
  else some Error.ErrNoRows

/-- Whether inserting the rows of `block` one after the other into `table`
hits the primary key `name`. -/
def keyViolation : List Location → List Location → Bool
  | _, [] => false
  | table, l :: rest =>
    table.any (fun row => row.Name == l.Name) || keyViolation (table ++ [l]) rest

/-- The call `db.BulkInsert(&block).Do()`. An empty slice is refused before
the DB is reached (the INSERT statement would have no values); otherwise it is
one statement, so on failure the table is left as it was. -/
def BulkInsert (table block : List Location) (fault : Bool) : Except Error (List Location) :=
  if block = [] then Except.error Error.MissingValues
  else if fault then Except.error Error.Fault
  else if keyViolation table block then Except.error Error.DuplicateKey
  else Except.ok (table ++ block)

/-- The newline string of `strings.Contains(loc.Name, "\n")`. -/
def newline : GoString := [0x0A]

/-- The variables of the loop of `ConvertCache`, and the calls of `BulkInsert`
made so far: each with the rows of the table at the time of the call and the
block passed. -/
structure LoopState where
  /-- The rows of table `Location` in the DB. -/
  table : List Location
  /-- The keys of `known` (every entry of the map is `true`). -/
  known : List GoString
  /-- The variable `block`. -/
  block : List Location
  /-- The calls of `db.BulkInsert`, oldest first. -/
  inserts : List (List Location × List Location)
  deriving DecidableEq

/-- One iteration of `for i, file := range files`: the state after it, and the
error when the iteration returns from `ConvertCache`. -/
def loopBody (st : LoopState) (i : Nat) (file : CacheFile) : LoopState × Option Error :=
  match file.read with
  | none => (st, none)
  | some loc =>
    if loc.Name.length > 25 then (st, none)
    else if loc.Name ∈ st.known then (st, none)
    else if selectErr st.table loc.Name file.selectFault ≠ some Error.ErrNoRows then (st, none)
    else
      let st1 : LoopState := { st with known := loc.Name :: st.known }
      if Contains loc.Name newline then (st1, none)
      else
        let st2 : LoopState := { st1 with block := st1.block ++ [loc] }
        if i % 1000 ≠ 0 ∨ i = 0 then (st2, none)
        else
          let st3 : LoopState := { st2 with inserts := st2.inserts ++ [(st2.table, st2.block)] }
          match BulkInsert st2.table st2.block file.insertFault with
          | Except.error e => (st3, some e)
          | Except.ok table => ({ st3 with table := table, block := [] }, none)

/-- The loop `for i, file := range files`, started at index `i`. -/
def convertLoop : LoopState → Nat → List CacheFile → LoopState × Option Error
  | st, _, [] => (st, none)
  | st, i, file :: files =>
    match loopBody st i file with
    | (st1, some e) => (st1, some e)
    | (st1, none) => convertLoop st1 (i + 1) files

/-- What one call of `ConvertCache` leaves behind: the rows of the table, the
calls of `BulkInsert` it made, and the error returned (`none` for `nil`). -/
structure Outcome where
  table : List Location
  inserts : List (List Location × List Location)
  err : Option Error
  deriving DecidableEq

/-- The method `Cache.ConvertCache(reset)`, run on a DB file whose table
`Location` holds the rows `db`. -/
def ConvertCache (w : World) (reset : Bool) (db : List Location) : Outcome :=
  if reset && w.removeFault then { table := db, inserts := [], err := some Error.Fault }
  else
    let table0 : List Location := if reset then [] else db
    if w.openFault then { table := table0, inserts := [], err := some Error.Fault }
    else if reset && w.createFault then { table := table0, inserts := [], err := some Error.Fault }
    else if w.globFault then { table := table0, inserts := [], err := some Error.Fault }
    else
      match convertLoop { table := table0, known := [], block := [], inserts := [] } 0 w.files with
      | (st, some e) => { table := st.table, inserts := st.inserts, err := some e }
      | (st, none) =>
        match BulkInsert st.table st.block w.lastInsertFault with
        | Except.error e =>
          { table := st.table, inserts := st.inserts ++ [(st.table, st.block)], err := some e }
        | Except.ok table =>
          { table := table, inserts := st.inserts ++ [(st.table, st.block)], err := none }


/-! ## The address parser of `internal/geo/ip` -/

/-- Modelled from the spec: the `Address` struct, declared in a file that is
not at hand; its fields are those the test compares. `F` is the type of the
coordinates (`float64`). -/
structure Address (F : Type) where
  IP : GoString
  CountryCode : GoString
  Country : GoString
  Region : GoString
  City : GoString
  Latitude : F
  Longitude : F
  deriving DecidableEq

/-- The error `types.ErrInvalidCacheEntry`. -/
inductive ParseError where
  | ErrInvalidCacheEntry
  deriving DecidableEq

/-- The field delimiter `";"`. -/
def semicolon : GoString := [0x3B]

/-- Modelled from the spec: `NewAddressFromString(ip, record)`, whose source is
not at hand (spec 4.1, operation `parse`). Split `record` on `;`; fewer than 4
fields fail; fields 0..3 are taken verbatim; with 6 fields or more, fields 4
and 5 are parsed as floats and either failure is `ErrInvalidCacheEntry`; with
4 or 5 fields both coordinates are the sentinel. `parseFloat` stands for the
float parser (`none` for a parse error) and `unknown` for the sentinel -1000. -/
def NewAddressFromString {F : Type} (parseFloat : GoString → Option F) (unknown : F)
    (ip record : GoString) : Except ParseError (Address F) :=
  let parts := Split record semicolon
  if parts.length < 4 then Except.error ParseError.ErrInvalidCacheEntry
  else if parts.length ≥ 6 then
    match parseFloat (parts.getD 4 []) with
    | none => Except.error ParseError.ErrInvalidCacheEntry
    | some lat =>
      match parseFloat (parts.getD 5 []) with
      | none => Except.error ParseError.ErrInvalidCacheEntry
      | some long =>
        Except.ok { IP := ip, CountryCode := parts.getD 0 [], Country := parts.getD 1 [],
                    Region := parts.getD 2 [], City := parts.getD 3 [],
                    Latitude := lat, Longitude := long }
  else
    Except.ok { IP := ip, CountryCode := parts.getD 0 [], Country := parts.getD 1 [],
                Region := parts.getD 2 [], City := parts.getD 3 [],
                Latitude := unknown, Longitude := unknown }

/-- The value of a decimal numeral: `(-1)^neg * digits / 10^scale`. -/
structure Decimal where
  neg : Bool
  digits : Nat
  scale : Nat
  deriving DecidableEq

/-- The digits of a decimal numeral with at most one point: the number read
so far, the count of digits behind the point, whether the point and whether a
digit has been seen. -/
def parseDigits : GoString → Nat → Nat → Bool → Bool → Option (Nat × Nat)
  | [], acc, scale, _, any => if any then some (acc, scale) else none
  | b :: rest, acc, scale, point, any =>
    if b = 0x2E then
      if point then none else parseDigits rest acc scale true any
    else if 0x30 ≤ b ∧ b ≤ 0x39 then
      parseDigits rest (10 * acc + (b.toNat - 48)) (if point then scale + 1 else scale) point true
    else none

/-- Modelled from the spec: a parser of the signed decimal floats of the cache
record format (spec 6: `.` as decimal separator, may be negative), used as the
float parser on concrete records. -/
def parseDecimal (s : GoString) : Option Decimal :=
  match s with
  | [] => none
  | b :: rest =>
    if b = 0x2D then
      (parseDigits rest 0 0 false false).map (fun r => { neg := true, digits := r.1, scale := r.2 })
    else
      (parseDigits (b :: rest) 0 0 false false).map
        (fun r => { neg := false, digits := r.1, scale := r.2 })

/-- The sentinel coordinate -1000. -/
def unknownCoordinate : Decimal := { neg := true, digits := 1000, scale := 0 }

/-! ## Vocabulary of the statements -/

/-- The `name` column of a list of rows. -/
def names (rows : List Location) : List GoString := rows.map (fun l => l.Name)

/-- All Locations passed to `BulkInsert` by a list of calls, in order. -/
def insertedRows (calls : List (List Location × List Location)) : List Location :=
  (calls.map Prod.snd).flatten

/-- The invariant of the loop of `ConvertCache`, for a table that started as
`t0`: `pend` is the block not yet passed to `BulkInsert`. -/
structure Inv (t0 table : List Location) (known : List GoString)
    (inserts : List (List Location × List Location)) (pend : List Location) : Prop where
  nodup : (names (insertedRows inserts ++ pend)).Nodup
  known : ∀ l ∈ insertedRows inserts ++ pend, l.Name ∈ known
  fresh : ∀ l ∈ pend, l.Name ∉ names table
  calls : ∀ c ∈ inserts, ∀ l ∈ c.2, l.Name ∉ names c.1
  valid : ∀ l ∈ insertedRows inserts ++ pend,
    l.Name.length ≤ 25 ∧ Contains l.Name newline = false
  rows : ∀ row ∈ table, row ∈ t0 ∨ row ∈ insertedRows inserts

/-! ## Concrete inputs -/

/-- A Location with the given name and empty other columns. -/
def locNamed (name : GoString) : Location :=
  { Name := name, DisplayName := [], Lat := [], Lon := [], Timezone := [] }

/-- A cache file that decodes to `loc`, met by a DB that answers. -/
def readable (loc : Location) : CacheFile :=
  { read := some loc, selectFault := false, insertFault := false }

/-- A cache file that `c.Read` rejects. -/
def unreadable : CacheFile :=
  { read := none, selectFault := false, insertFault := false }

/-- A run in which no OS call fails and the DB answers every call, over the
given files. -/
def quietWorld (files : List CacheFile) : World :=
  { removeFault := false, openFault := false, createFault := false, globFault := false,
    files := files, lastInsertFault := false }

/-- A cache directory with a colliding name, a name with a newline, a name of
26 bytes and an undecodable file. -/
def mixedFiles : List CacheFile :=
  [readable (locNamed (lit "Hamburg")), readable (locNamed (lit "Madrid")),
   readable { locNamed (lit "Hamburg") with Timezone := lit "Europe/Berlin" },
   readable (locNamed (lit "Mountain\nView")),
   readable (locNamed (lit "abcdefghijklmnopqrstuvwxyz")), unreadable]

/-- The first `n` of 2500 Locations whose names are two bytes from `0`..`a`. -/
def manyLocs (n : Nat) : List Location :=
  (List.range n).map (fun k => locNamed [UInt8.ofNat (48 + k / 50), UInt8.ofNat (48 + k % 50)])

/-- A cache file that decodes to `loc`, met by a DB whose existence query
fails with an error other than `sql.ErrNoRows`. -/
def readableQueryFails (loc : Location) : CacheFile :=
  { read := some loc, selectFault := true, insertFault := false }

/-- A directory of two files: Madrid, met by a DB that answers, and Hamburg,
met by a DB whose existence query fails. -/
def queryFailsOnSecond : List CacheFile :=
  [readable (locNamed (lit "Madrid")), readableQueryFails (locNamed (lit "Hamburg"))]

/-- The same directory, met by a DB that answers every query. -/
def queryFailsOnSecondAgain : List CacheFile :=
  [readable (locNamed (lit "Madrid")), readable (locNamed (lit "Hamburg"))]

/-- A directory of 3001 files: Hamburg, then 3000 files that `c.Read` rejects;
the files of index 1000, 2000 and 3000 are among these. -/
def skippedAtThousand : List CacheFile :=
  readable (locNamed (lit "Hamburg")) :: List.replicate 3000 unreadable

/-- A directory of 1001 files: 1000 files that `c.Read` rejects, then Hamburg
as the file of index 1000. -/
def acceptedAtThousand : List CacheFile :=
  List.replicate 1000 unreadable ++ [readable (locNamed (lit "Hamburg"))]

/-! ## Theorems -/

/-! ### The `strings` package -/

theorem HasPrefix_iff (s p : GoString) : HasPrefix s p = true ↔ p <+: s := by
  induction s generalizing p with
  | nil => cases p <;> simp [HasPrefix]
  | cons a s ih =>
    cases p with
    | nil => simp [HasPrefix]
    | cons b p =>
      simp only [HasPrefix, Bool.and_eq_true, beq_iff_eq, ih, List.cons_prefix_cons]
      constructor
      · rintro ⟨h1, h2⟩
        exact ⟨h1.symm, h2⟩
      · rintro ⟨h1, h2⟩
        exact ⟨h1.symm, h2⟩

/-- `strings.Contains(s, substr)` holds exactly when `substr` occurs in `s` as a
contiguous run of bytes. -/
theorem Contains_iff (s substr : GoString) : Contains s substr = true ↔ substr <:+: s := by
  unfold Contains
  induction s with
  | nil =>
    simp only [Index]
    split <;> rename_i h
    · simpa [HasPrefix_iff] using h
    · simpa [HasPrefix_iff] using h
  | cons a s ih =>
    simp only [Index]
    split <;> rename_i h
    · rw [HasPrefix_iff] at h
      simpa using h.isInfix
    · rw [HasPrefix_iff] at h
      simp only [Option.isSome_map', ih]
      rw [List.infix_cons_iff]
      simp [h]

theorem Contains_newline (s : GoString) :
    Contains s newline = false ↔ (0x0A : UInt8) ∉ s := by
  rw [← Bool.not_eq_true, Contains_iff, newline]
  constructor
  · intro h hmem
    obtain ⟨a, b, hab⟩ := List.append_of_mem hmem
    exact h ⟨a, b, by simp [hab]⟩
  · rintro h ⟨a, b, hab⟩
    apply h
    rw [← hab]
    simp

theorem Index_lt {s sep : GoString} {m : Nat} (h : Index s sep = some m) :
    m + sep.length ≤ s.length := by
  induction s generalizing m with
  | nil =>
    simp only [Index] at h
    split at h
    · rename_i hp
      cases sep with
      | nil => simp at h; omega
      | cons b p => simp [HasPrefix] at hp
    · simp at h
  | cons a s ih =>
    simp only [Index] at h
    split at h
    · rename_i hp
      have := ((HasPrefix_iff _ _).1 hp).length_le
      simp at h
      omega
    · cases hi : Index s sep with
      | none => simp [hi] at h
      | some k =>
        simp [hi] at h
        have := ih hi
        simp only [List.length_cons]
        omega

/-- The loop bound of `genSplit` is never the reason the loop stops: any bound
of at least `len(s)` gives the same slices. -/
theorem genSplit_fuel (sep : GoString) (hsep : sep ≠ []) (f1 f2 : Nat) (s : GoString)
    (h1 : s.length ≤ f1) (h2 : s.length ≤ f2) : genSplit f1 s sep = genSplit f2 s sep := by
  induction f1 generalizing f2 s with
  | zero =>
    have hs : s = [] := List.length_eq_zero.1 (Nat.le_zero.1 h1)
    subst hs
    cases sep with
    | nil => exact absurd rfl hsep
    | cons b p => cases f2 <;> simp [genSplit, Index, HasPrefix]
  | succ f1 ih =>
    cases f2 with
    | zero =>
      have hs : s = [] := List.length_eq_zero.1 (Nat.le_zero.1 h2)
      subst hs
      cases sep with
      | nil => exact absurd rfl hsep
      | cons b p => simp [genSplit, Index, HasPrefix]
    | succ f2 =>
      simp only [genSplit]
      cases hi : Index s sep with
      | none => rfl
      | some m =>
        simp only
        have hlen := Index_lt hi
        have hpos : 0 < sep.length := List.length_pos.2 hsep
        rw [ih f2 (s.drop (m + sep.length))
          (by rw [List.length_drop]; omega) (by rw [List.length_drop]; omega)]

theorem runeSizeMulti_pos (sz : Nat) (lo hi : UInt8) (rest : GoString) :
    1 ≤ runeSizeMulti sz lo hi rest := by
  unfold runeSizeMulti
  repeat' split
  all_goals omega

theorem runeSize_pos (s : GoString) (hs : s ≠ []) : 1 ≤ runeSize s := by
  cases s with
  | nil => exact absurd rfl hs
  | cons s0 rest =>
    rw [runeSize]
    split
    · exact Nat.le_refl 1
    split
    · exact Nat.le_refl 1
    iterate 8
      split
      · exact runeSizeMulti_pos _ _ _ _
    exact Nat.le_refl 1

/-- The loop bound of `explode` is never the reason the loop stops: the slices
put together are the string again. -/
theorem explode_flatten (fuel : Nat) (s : GoString) (h : s.length ≤ fuel) :
    (explode fuel s).flatten = s := by
  induction fuel generalizing s with
  | zero =>
    have hs : s = [] := List.length_eq_zero.1 (Nat.le_zero.1 h)
    simp [explode, hs]
  | succ fuel ih =>
    unfold explode
    by_cases hs : s = []
    · simp [hs]
    · rw [if_neg hs, List.flatten_cons, ih]
      · exact List.take_append_drop _ _
      · have := runeSize_pos s hs
        rw [List.length_drop]
        omega

/-! ### `LogSuppressor.Write` -/

theorem suppressed_iff (suppress : List GoString) (line : GoString) :
    suppressed suppress line = true ↔ ∃ s ∈ suppress, s <:+: line := by
  induction suppress with
  | nil => simp [suppressed]
  | cons s rest ih =>
    simp only [suppressed, List.mem_cons, exists_eq_or_imp, ← ih]
    by_cases h : Contains line s = true
    · simp [h, (Contains_iff line s).1 h]
    · have hn : ¬ s <:+: line := fun hx => h ((Contains_iff line s).2 hx)
      simp [h, hn]

theorem writeLoop_eq (suppress : List GoString) (lines : List GoString) (output : GoString) :
    writeLoop suppress lines output
      = output ++ (lines.filter (fun l => !suppressed suppress l)).flatten := by
  induction lines generalizing output with
  | nil => simp [writeLoop]
  | cons l lines ih =>
    by_cases h : suppressed suppress l = true
    · simp [writeLoop, h, ih]
    · simp [writeLoop, h, ih, List.filter_cons]

/-- C1: with a non-empty filename `Write` hands the log file exactly the
concatenation, in order, of the segments of `strings.Split(string(p), linePrefix)`
in which no suppression substring occurs. -/
theorem Write_keeps_unsuppressed_segments (ls : LogSuppressor) (p : GoString)
    (h : ls.filename ≠ []) :
    ls.Write p = (Sink.LogFile,
      ((Split p ls.linePrefix).filter
        (fun seg => decide (∀ s ∈ ls.suppress, ¬ s <:+: seg))).flatten) := by
  unfold LogSuppressor.Write
  rw [if_neg h, writeLoop_eq, List.nil_append]
  congr 2
  apply List.filter_congr
  intro seg _
  by_cases hs : suppressed ls.suppress seg = true
  · rw [hs]
    have := (suppressed_iff _ _).1 hs
    simpa using this
  · have hn : ¬ ∃ s ∈ ls.suppress, s <:+: seg := fun hx => hs ((suppressed_iff _ _).2 hx)
    simp only [Bool.not_eq_true] at hs
    rw [hs]
    simpa using hn

/-- C1, the scenario of the health check: the segments are the empty string in
front of the first `[` and the three entries; the `/data` and `/ping` entries
reach the file, the `/health` entry does not. -/
theorem Write_keeps_unsuppressed_segments_witness :
    lit "wttr.log" ≠ [] ∧
    Split (lit "[12:00] GET /data\n[12:01] GET /health\n[12:02] GET /ping\n") (lit "[")
      = [[], lit "12:00] GET /data\n", lit "12:01] GET /health\n", lit "12:02] GET /ping\n"] ∧
    (NewLogSuppressor (lit "wttr.log") [lit "GET /health"] (lit "[")).Write
        (lit "[12:00] GET /data\n[12:01] GET /health\n[12:02] GET /ping\n")
      = (Sink.LogFile, lit "12:00] GET /data\n" ++ lit "12:02] GET /ping\n") :=
  ⟨by decide, by decide,
   (Write_keeps_unsuppressed_segments
      (NewLogSuppressor (lit "wttr.log") [lit "GET /health"] (lit "["))
      (lit "[12:00] GET /data\n[12:01] GET /health\n[12:02] GET /ping\n")
      (by decide)).trans (by decide)⟩

/-- C2: with an empty filename `Write` issues the write of `p` on `os.Stdin`,
unfiltered; nothing is written to `os.Stderr`, which is where the comment of
`NewLogSuppressor` says the entries go. -/
theorem Write_empty_filename_writes_to_stdin (suppress : List GoString)
    (linePrefix p : GoString) :
    (NewLogSuppressor [] suppress linePrefix).Write p = (Sink.Stdin, p) ∧
    ((NewLogSuppressor [] suppress linePrefix).Write p).1 ≠ Sink.Stderr := by
  simp [NewLogSuppressor, LogSuppressor.Write]

/-! ### `ConvertCache`: what reaches `BulkInsert` -/

theorem insertedRows_snoc (calls : List (List Location × List Location))
    (t b : List Location) : insertedRows (calls ++ [(t, b)]) = insertedRows calls ++ b := by
  simp [insertedRows]

theorem mem_names {rows : List Location} {n : GoString} :
    n ∈ names rows ↔ ∃ l ∈ rows, l.Name = n := by
  simp [names]

theorem selectErr_noRows {table : List Location} {name : GoString} {fault : Bool}
    (h : selectErr table name fault = some Error.ErrNoRows) :
    fault = false ∧ name ∉ names table := by
  unfold selectErr at h
  cases fault with
  | true => simp at h
  | false =>
    refine ⟨rfl, ?_⟩
    by_cases hany : table.any (fun row => row.Name == name) = true
    · simp [hany] at h
    · intro hmem
      apply hany
      obtain ⟨l, hl, hn⟩ := mem_names.1 hmem
      exact List.any_eq_true.2 ⟨l, hl, by simp [hn]⟩

theorem keyViolation_eq_false (table block : List Location) :
    keyViolation table block = false ↔
      (∀ l ∈ block, l.Name ∉ names table) ∧ (names block).Nodup := by
  induction block generalizing table with
  | nil => simp [keyViolation, names]
  | cons l rest ih =>
    simp only [keyViolation, Bool.or_eq_false_iff, ih, List.mem_cons, forall_eq_or_imp]
    have hany : (table.any (fun row => row.Name == l.Name) = false) ↔ l.Name ∉ names table := by
      rw [← Bool.not_eq_true, List.any_eq_true, mem_names]
      simp
    rw [hany]
    simp only [names, List.map_append, List.map_cons, List.map_nil, List.mem_append,
      List.mem_singleton, List.nodup_cons, not_or, List.mem_map, not_exists, not_and]
    constructor
    · rintro ⟨h1, h2, h3⟩
      refine ⟨⟨h1, fun x hx => (h2 x hx).1⟩, ?_, h3⟩
      intro x hx hEq
      exact (h2 x hx).2 hEq
    · rintro ⟨⟨h1, h2⟩, h3, h4⟩
      refine ⟨h1, fun x hx => ⟨h2 x hx, fun hEq => h3 x hx hEq⟩, h4⟩

theorem BulkInsert_ok {table block table1 : List Location} {fault : Bool}
    (h : BulkInsert table block fault = Except.ok table1) : table1 = table ++ block := by
  unfold BulkInsert at h
  split at h
  · simp at h
  · split at h
    · simp at h
    · split at h
      · simp at h
      · simpa using h.symm


theorem Inv.weaken_known {t0 table : List Location} {known : List GoString}
    {inserts : List (List Location × List Location)} {pend : List Location}
    (h : Inv t0 table known inserts pend) (n : GoString) :
    Inv t0 table (n :: known) inserts pend :=
  { h with known := fun l hl => List.mem_cons_of_mem _ (h.known l hl) }

theorem Inv.accept {t0 table : List Location} {known : List GoString}
    {inserts : List (List Location × List Location)} {pend : List Location}
    (h : Inv t0 table known inserts pend) (loc : Location)
    (hlen : ¬ loc.Name.length > 25) (hknown : loc.Name ∉ known)
    (hsel : loc.Name ∉ names table) (hnl : Contains loc.Name newline = false) :
    Inv t0 table (loc.Name :: known) inserts (pend ++ [loc]) where
  nodup := by
    have hnd := h.nodup
    rw [← List.append_assoc]
    simp only [names, List.map_append, List.map_cons, List.map_nil] at hnd ⊢
    rw [← List.map_append] at hnd ⊢
    refine List.Nodup.append hnd (List.nodup_singleton _) ?_
    intro n hn hn1
    rw [List.mem_singleton] at hn1
    subst hn1
    obtain ⟨l, hl, hEq⟩ := List.mem_map.1 hn
    exact hknown (hEq ▸ h.known l hl)
  known := by
    intro l hl
    rw [← List.append_assoc, List.mem_append, List.mem_singleton] at hl
    rcases hl with hl | hl
    · exact List.mem_cons_of_mem _ (h.known l hl)
    · subst hl
      exact List.mem_cons_self _ _
  fresh := by
    intro l hl
    rw [List.mem_append, List.mem_singleton] at hl
    rcases hl with hl | hl
    · exact h.fresh l hl
    · subst hl
      exact hsel
  calls := h.calls
  valid := by
    intro l hl
    rw [← List.append_assoc, List.mem_append, List.mem_singleton] at hl
    rcases hl with hl | hl
    · exact h.valid l hl
    · subst hl
      exact ⟨Nat.le_of_not_gt hlen, hnl⟩
  rows := h.rows

theorem Inv.flush {t0 table : List Location} {known : List GoString}
    {inserts : List (List Location × List Location)} {pend : List Location}
    (h : Inv t0 table known inserts pend) (table1 : List Location)
    (hrows : ∀ row ∈ table1, row ∈ table ∨ row ∈ pend) :
    Inv t0 table1 known (inserts ++ [(table, pend)]) [] where
  nodup := by simpa [insertedRows_snoc] using h.nodup
  known := by simpa [insertedRows_snoc] using h.known
  fresh := by simp
  calls := by
    intro c hc
    rw [List.mem_append, List.mem_singleton] at hc
    rcases hc with hc | hc
    · exact h.calls c hc
    · subst hc
      exact h.fresh
  valid := by simpa [insertedRows_snoc] using h.valid
  rows := by
    intro row hrow
    rw [insertedRows_snoc, List.mem_append]
    rcases hrows row hrow with hr | hr
    · rcases h.rows row hr with h0 | h1
      · exact Or.inl h0
      · exact Or.inr (Or.inl h1)
    · exact Or.inr (Or.inr hr)

/-! The branches of the loop body, one equation each. -/

theorem loopBody_unreadable (st : LoopState) (i : Nat) (file : CacheFile)
    (hread : file.read = none) : loopBody st i file = (st, none) := by
  simp [loopBody, hread]

theorem loopBody_long (st : LoopState) (i : Nat) (file : CacheFile) (loc : Location)
    (hread : file.read = some loc) (hlen : loc.Name.length > 25) :
    loopBody st i file = (st, none) := by
  simp [loopBody, hread, hlen]

theorem loopBody_known (st : LoopState) (i : Nat) (file : CacheFile) (loc : Location)
    (hread : file.read = some loc) (hknown : loc.Name ∈ st.known) :
    loopBody st i file = (st, none) := by
  simp [loopBody, hread, hknown]

theorem loopBody_found (st : LoopState) (i : Nat) (file : CacheFile) (loc : Location)
    (hread : file.read = some loc)
    (hsel : selectErr st.table loc.Name file.selectFault ≠ some Error.ErrNoRows) :
    loopBody st i file = (st, none) := by
  simp [loopBody, hread, hsel]

theorem loopBody_newline (st : LoopState) (i : Nat) (file : CacheFile) (loc : Location)
    (hread : file.read = some loc) (hlen : ¬ loc.Name.length > 25)
    (hknown : loc.Name ∉ st.known)
    (hsel : selectErr st.table loc.Name file.selectFault = some Error.ErrNoRows)
    (hnl : Contains loc.Name newline = true) :
    loopBody st i file = ({ st with known := loc.Name :: st.known }, none) := by
  simp [loopBody, hread, hlen, hknown, hsel, hnl]

theorem loopBody_append (st : LoopState) (i : Nat) (file : CacheFile) (loc : Location)
    (hread : file.read = some loc) (hlen : ¬ loc.Name.length > 25)
    (hknown : loc.Name ∉ st.known)
    (hsel : selectErr st.table loc.Name file.selectFault = some Error.ErrNoRows)
    (hnl : Contains loc.Name newline = false) (hi : i % 1000 ≠ 0 ∨ i = 0) :
    loopBody st i file
      = ({ st with known := loc.Name :: st.known, block := st.block ++ [loc] }, none) := by
  simp only [loopBody, hread, if_neg hlen, if_neg hknown, hsel, ne_eq, not_true_eq_false,
    if_false, hnl, Bool.false_eq_true, if_pos hi]

theorem loopBody_flush (st : LoopState) (i : Nat) (file : CacheFile) (loc : Location)
    (hread : file.read = some loc) (hlen : ¬ loc.Name.length > 25)
    (hknown : loc.Name ∉ st.known)
    (hsel : selectErr st.table loc.Name file.selectFault = some Error.ErrNoRows)
    (hnl : Contains loc.Name newline = false) (hi : ¬ (i % 1000 ≠ 0 ∨ i = 0)) :
    loopBody st i file
      = match BulkInsert st.table (st.block ++ [loc]) file.insertFault with
        | Except.error e =>
          ({ table := st.table, known := loc.Name :: st.known, block := st.block ++ [loc],
             inserts := st.inserts ++ [(st.table, st.block ++ [loc])] }, some e)
        | Except.ok table =>
          ({ table := table, known := loc.Name :: st.known, block := [],
             inserts := st.inserts ++ [(st.table, st.block ++ [loc])] }, none) := by
  simp only [loopBody, hread, if_neg hlen, if_neg hknown, hsel, ne_eq, not_true_eq_false,
    if_false, hnl, Bool.false_eq_true, if_neg hi]

theorem loopBody_inv (t0 : List Location) (st : LoopState) (i : Nat) (file : CacheFile)
    (h : Inv t0 st.table st.known st.inserts st.block) :
    Inv t0 (loopBody st i file).1.table (loopBody st i file).1.known
      (loopBody st i file).1.inserts
      (if (loopBody st i file).2.isSome then [] else (loopBody st i file).1.block) := by
  cases hread : file.read with
  | none => rw [loopBody_unreadable st i file hread]; simpa using h
  | some loc =>
    by_cases hlen : loc.Name.length > 25
    · rw [loopBody_long st i file loc hread hlen]; simpa using h
    by_cases hknown : loc.Name ∈ st.known
    · rw [loopBody_known st i file loc hread hknown]; simpa using h
    by_cases hsel : selectErr st.table loc.Name file.selectFault = some Error.ErrNoRows
    swap
    · rw [loopBody_found st i file loc hread hsel]; simpa using h
    have hsel1 := selectErr_noRows hsel
    cases hnl : Contains loc.Name newline with
    | true =>
      rw [loopBody_newline st i file loc hread hlen hknown hsel hnl]
      simpa using h.weaken_known loc.Name
    | false =>
      have hacc := h.accept loc hlen hknown hsel1.2 hnl
      by_cases hi : i % 1000 ≠ 0 ∨ i = 0
      · rw [loopBody_append st i file loc hread hlen hknown hsel hnl hi]
        simpa using hacc
      · rw [loopBody_flush st i file loc hread hlen hknown hsel hnl hi]
        cases hins : BulkInsert st.table (st.block ++ [loc]) file.insertFault with
        | error e =>
          simpa using hacc.flush st.table (fun row hrow => Or.inl hrow)
        | ok table1 =>
          have ht := BulkInsert_ok hins
          simp only [Option.isSome_none, Bool.false_eq_true, if_false]
          refine hacc.flush table1 ?_
          intro row hrow
          rw [ht] at hrow
          exact List.mem_append.1 hrow

theorem convertLoop_inv (t0 : List Location) (files : List CacheFile) (st : LoopState)
    (i : Nat) (h : Inv t0 st.table st.known st.inserts st.block) :
    Inv t0 (convertLoop st i files).1.table (convertLoop st i files).1.known
      (convertLoop st i files).1.inserts
      (if (convertLoop st i files).2.isSome then [] else (convertLoop st i files).1.block) := by
  induction files generalizing st i with
  | nil => simpa [convertLoop] using h
  | cons file files ih =>
    have hstep := loopBody_inv t0 st i file h
    unfold convertLoop
    cases hb : loopBody st i file with
    | mk st1 e =>
      rw [hb] at hstep
      cases e with
      | some e => simpa using hstep
      | none => exact ih st1 (i + 1) (by simpa using hstep)

theorem Inv.init (t0 : List Location) : Inv t0 t0 [] [] [] where
  nodup := by simp [insertedRows, names]
  known := by simp [insertedRows]
  fresh := by simp
  calls := by simp
  valid := by simp [insertedRows]
  rows := fun _ h => Or.inl h

theorem ConvertCache_inv (w : World) (reset : Bool) (db : List Location) :
    ∃ known, Inv (if reset = true ∧ w.removeFault = false then [] else db)
      (ConvertCache w reset db).table known (ConvertCache w reset db).inserts [] := by
  by_cases hrem : (reset && w.removeFault) = true
  · have h2 : ¬ (reset = true ∧ w.removeFault = false) := by
      simp only [Bool.and_eq_true] at hrem
      simp [hrem.2]
    refine ⟨[], ?_⟩
    rw [if_neg h2]
    simpa [ConvertCache, hrem] using Inv.init db
  · have ht0 : (if reset = true ∧ w.removeFault = false then [] else db)
        = (if reset = true then [] else db) := by
      cases reset <;> cases hr : w.removeFault <;> simp_all
    rw [ht0]
    generalize htab : (if reset = true then [] else db) = table0
    by_cases hopen : w.openFault = true
    · exact ⟨[], by simpa [ConvertCache, hrem, hopen, htab] using Inv.init table0⟩
    by_cases hcreate : (reset && w.createFault) = true
    · exact ⟨[], by simpa [ConvertCache, hrem, hopen, hcreate, htab] using Inv.init table0⟩
    by_cases hglob : w.globFault = true
    · exact ⟨[], by simpa [ConvertCache, hrem, hopen, hcreate, hglob, htab] using Inv.init table0⟩
    have hloop := convertLoop_inv table0 w.files
      { table := table0, known := [], block := [], inserts := [] } 0 (Inv.init _)
    simp only [ConvertCache, hrem, hopen, hcreate, hglob, htab, if_false, Bool.false_eq_true]
    cases hl : convertLoop { table := table0, known := [], block := [], inserts := [] } 0 w.files with
    | mk st e =>
      rw [hl] at hloop
      cases e with
      | some e => exact ⟨st.known, by simpa using hloop⟩
      | none =>
        simp only [Option.isSome_none, Bool.false_eq_true, if_false] at hloop
        cases hins : BulkInsert st.table st.block w.lastInsertFault with
        | error e =>
          refine ⟨st.known, ?_⟩
          simp only [hins]
          exact hloop.flush st.table (fun row hrow => Or.inl hrow)
        | ok table1 =>
          have ht := BulkInsert_ok hins
          refine ⟨st.known, ?_⟩
          simp only [hins]
          refine hloop.flush table1 ?_
          intro row hrow
          rw [ht] at hrow
          exact List.mem_append.1 hrow

/-- The conditions under which the loop body reaches `block = append(block, *loc)`. -/
theorem loopBody_cases (st : LoopState) (i : Nat) (file : CacheFile) :
    (loopBody st i file = (st, none) ∧
      (file.read = none ∨ ∃ loc, file.read = some loc ∧
        (loc.Name.length > 25 ∨ loc.Name ∈ st.known ∨
          selectErr st.table loc.Name file.selectFault ≠ some Error.ErrNoRows))) ∨
    (∃ loc, file.read = some loc ∧ ¬ loc.Name.length > 25 ∧ loc.Name ∉ st.known ∧
      selectErr st.table loc.Name file.selectFault = some Error.ErrNoRows ∧
      ((Contains loc.Name newline = true ∧
          loopBody st i file = ({ st with known := loc.Name :: st.known }, none)) ∨
       (Contains loc.Name newline = false ∧ (i % 1000 ≠ 0 ∨ i = 0) ∧
          loopBody st i file
            = ({ st with known := loc.Name :: st.known, block := st.block ++ [loc] }, none)) ∨
       (Contains loc.Name newline = false ∧ ¬ (i % 1000 ≠ 0 ∨ i = 0) ∧
          ∃ e, BulkInsert st.table (st.block ++ [loc]) file.insertFault = Except.error e ∧
          loopBody st i file
            = ({ table := st.table, known := loc.Name :: st.known, block := st.block ++ [loc],
                 inserts := st.inserts ++ [(st.table, st.block ++ [loc])] }, some e)) ∨
       (Contains loc.Name newline = false ∧ ¬ (i % 1000 ≠ 0 ∨ i = 0) ∧
          BulkInsert st.table (st.block ++ [loc]) file.insertFault
            = Except.ok (st.table ++ (st.block ++ [loc])) ∧
          loopBody st i file
            = ({ table := st.table ++ (st.block ++ [loc]), known := loc.Name :: st.known,
                 block := [],
                 inserts := st.inserts ++ [(st.table, st.block ++ [loc])] }, none)))) := by
  cases hread : file.read with
  | none => exact Or.inl ⟨loopBody_unreadable st i file hread, Or.inl rfl⟩
  | some loc =>
    by_cases hlen : loc.Name.length > 25
    · exact Or.inl ⟨loopBody_long st i file loc hread hlen, Or.inr ⟨loc, rfl, Or.inl hlen⟩⟩
    by_cases hknown : loc.Name ∈ st.known
    · exact Or.inl ⟨loopBody_known st i file loc hread hknown,
        Or.inr ⟨loc, rfl, Or.inr (Or.inl hknown)⟩⟩
    by_cases hsel : selectErr st.table loc.Name file.selectFault = some Error.ErrNoRows
    swap
    · exact Or.inl ⟨loopBody_found st i file loc hread hsel,
        Or.inr ⟨loc, rfl, Or.inr (Or.inr hsel)⟩⟩
    refine Or.inr ⟨loc, rfl, hlen, hknown, hsel, ?_⟩
    cases hnl : Contains loc.Name newline with
    | true => exact Or.inl ⟨rfl, loopBody_newline st i file loc hread hlen hknown hsel hnl⟩
    | false =>
      by_cases hi : i % 1000 ≠ 0 ∨ i = 0
      · exact Or.inr (Or.inl ⟨rfl, hi, loopBody_append st i file loc hread hlen hknown hsel hnl hi⟩)
      · have hfl := loopBody_flush st i file loc hread hlen hknown hsel hnl hi
        cases hins : BulkInsert st.table (st.block ++ [loc]) file.insertFault with
        | error e =>
          rw [hins] at hfl
          exact Or.inr (Or.inr (Or.inl ⟨rfl, hi, e, rfl, hfl⟩))
        | ok table1 =>
          rw [hins] at hfl
          have ht := BulkInsert_ok hins
          subst ht
          exact Or.inr (Or.inr (Or.inr ⟨rfl, hi, rfl, hfl⟩))

/-- While the loop runs, the table is what it started as followed by the
blocks inserted so far. -/
theorem loopBody_table (t0 : List Location) (st st1 : LoopState) (i : Nat) (file : CacheFile)
    (hb : loopBody st i file = (st1, none))
    (ht : st.table = t0 ++ insertedRows st.inserts) :
    st1.table = t0 ++ insertedRows st1.inserts := by
  rcases loopBody_cases st i file with ⟨h, _⟩ | ⟨loc, _, _, _, _, h⟩
  · rw [h] at hb
    cases hb
    exact ht
  · rcases h with ⟨_, h⟩ | ⟨_, _, h⟩ | ⟨_, _, e, _, h⟩ | ⟨_, _, _, h⟩
    · rw [h] at hb
      cases hb
      exact ht
    · rw [h] at hb
      cases hb
      exact ht
    · rw [h] at hb
      cases hb
    · rw [h] at hb
      cases hb
      simp only [insertedRows_snoc]
      rw [ht, List.append_assoc]

theorem convertLoop_table (t0 : List Location) (files : List CacheFile)
    (st st1 : LoopState) (i : Nat)
    (hl : convertLoop st i files = (st1, none))
    (ht : st.table = t0 ++ insertedRows st.inserts) :
    st1.table = t0 ++ insertedRows st1.inserts := by
  induction files generalizing st i with
  | nil =>
    simp only [convertLoop] at hl
    cases hl
    exact ht
  | cons file files ih =>
    unfold convertLoop at hl
    cases hb : loopBody st i file with
    | mk st2 e =>
      rw [hb] at hl
      cases e with
      | some e => simp at hl
      | none => exact ih st2 (i + 1) hl (loopBody_table t0 st st2 i file hb ht)

/-- How `ConvertCache` ends when none of its first steps fails. -/
theorem ConvertCache_run (w : World) (reset : Bool) (db : List Location)
    (hrem : (reset && w.removeFault) = false) (hopen : w.openFault = false)
    (hcreate : (reset && w.createFault) = false) (hglob : w.globFault = false) :
    ConvertCache w reset db =
      match convertLoop { table := if reset then [] else db, known := [], block := [],
                          inserts := [] } 0 w.files with
      | (st, some e) => { table := st.table, inserts := st.inserts, err := some e }
      | (st, none) =>
        match BulkInsert st.table st.block w.lastInsertFault with
        | Except.error e =>
          { table := st.table, inserts := st.inserts ++ [(st.table, st.block)], err := some e }
        | Except.ok table =>
          { table := table, inserts := st.inserts ++ [(st.table, st.block)], err := none } := by
  simp only [ConvertCache, hrem, hopen, hcreate, hglob, Bool.false_eq_true, if_false]

/-- A run that returns `nil` passed every first step, finished the loop and
made its last insert. -/
theorem ConvertCache_success (w : World) (reset : Bool) (db : List Location)
    (hok : (ConvertCache w reset db).err = none) :
    ∃ st, convertLoop { table := if reset then [] else db, known := [], block := [],
                        inserts := [] } 0 w.files = (st, none) ∧
      BulkInsert st.table st.block w.lastInsertFault = Except.ok (st.table ++ st.block) ∧
      ConvertCache w reset db
        = { table := st.table ++ st.block, inserts := st.inserts ++ [(st.table, st.block)],
            err := none } := by
  by_cases hrem : (reset && w.removeFault) = true
  · simp [ConvertCache, hrem] at hok
  by_cases hopen : w.openFault = true
  · simp [ConvertCache, hrem, hopen] at hok
  by_cases hcreate : (reset && w.createFault) = true
  · simp [ConvertCache, hrem, hopen, hcreate] at hok
  by_cases hglob : w.globFault = true
  · simp [ConvertCache, hrem, hopen, hcreate, hglob] at hok
  have hrun := ConvertCache_run w reset db (by simpa using hrem) (by simpa using hopen)
    (by simpa using hcreate) (by simpa using hglob)
  rw [hrun] at hok ⊢
  cases hl : convertLoop { table := if reset then [] else db, known := [], block := [], inserts := [] } 0 w.files with
  | mk st e =>
    rw [hl] at hok
    cases e with
    | some e => simp at hok
    | none =>
      cases hins : BulkInsert st.table st.block w.lastInsertFault with
      | error e => simp [hins] at hok
      | ok table1 =>
        have ht := BulkInsert_ok hins
        subst ht
        exact ⟨st, rfl, hins, by simp [hins]⟩

theorem convertLoop_error (files : List CacheFile) (st st1 : LoopState) (i : Nat) (e : Error)
    (hl : convertLoop st i files = (st1, some e)) :
    ∃ c ∈ st1.inserts, ∃ fault, BulkInsert c.1 c.2 fault = Except.error e := by
  induction files generalizing st i with
  | nil => simp [convertLoop] at hl
  | cons file files ih =>
    unfold convertLoop at hl
    cases hb : loopBody st i file with
    | mk st2 e2 =>
      rw [hb] at hl
      cases e2 with
      | none => exact ih st2 (i + 1) hl
      | some e2 =>
        simp only [Prod.mk.injEq, Option.some.injEq] at hl
        obtain ⟨h1, h2⟩ := hl
        subst h1 h2
        rcases loopBody_cases st i file with ⟨h, _⟩ | ⟨loc, _, _, _, _, h⟩
        · rw [h] at hb
          cases hb
        · rcases h with ⟨_, h⟩ | ⟨_, _, h⟩ | ⟨_, _, e, hins, h⟩ | ⟨_, _, _, h⟩
          · rw [h] at hb
            cases hb
          · rw [h] at hb
            cases hb
          · rw [h] at hb
            cases hb
            exact ⟨(st.table, st.block ++ [loc]), by simp, file.insertFault, hins⟩
          · rw [h] at hb
            cases hb

theorem ConvertCache_error (w : World) (reset : Bool) (db : List Location) (e : Error)
    (he : (ConvertCache w reset db).err = some e) :
    e = Error.Fault ∨
      ∃ c ∈ (ConvertCache w reset db).inserts, ∃ fault,
        BulkInsert c.1 c.2 fault = Except.error e := by
  by_cases hrem : (reset && w.removeFault) = true
  · left
    simpa [ConvertCache, hrem] using he.symm
  by_cases hopen : w.openFault = true
  · left
    simpa [ConvertCache, hrem, hopen] using he.symm
  by_cases hcreate : (reset && w.createFault) = true
  · left
    simpa [ConvertCache, hrem, hopen, hcreate] using he.symm
  by_cases hglob : w.globFault = true
  · left
    simpa [ConvertCache, hrem, hopen, hcreate, hglob] using he.symm
  right
  have hrun := ConvertCache_run w reset db (by simpa using hrem) (by simpa using hopen)
    (by simpa using hcreate) (by simpa using hglob)
  rw [hrun] at he ⊢
  cases hl : convertLoop { table := if reset then [] else db, known := [], block := [], inserts := [] } 0 w.files with
  | mk st e1 =>
    rw [hl] at he
    cases e1 with
    | some e1 =>
      simp only [Option.some.injEq] at he
      subst he
      exact convertLoop_error w.files _ st 0 e1 hl
    | none =>
      cases hins : BulkInsert st.table st.block w.lastInsertFault with
      | error e2 =>
        simp only [hins, Option.some.injEq] at he
        subst he
        simp only [hins]
        exact ⟨(st.table, st.block), by simp, w.lastInsertFault, hins⟩
      | ok table1 => simp [hins] at he

/-- After a successful `reset = true` run the table is the concatenation of
the blocks passed to `BulkInsert`. -/
theorem ConvertCache_reset_table (w : World) (db : List Location)
    (hok : (ConvertCache w true db).err = none) :
    (ConvertCache w true db).table = insertedRows (ConvertCache w true db).inserts := by
  obtain ⟨st, hl, _, hrun⟩ := ConvertCache_success w true db hok
  have ht := convertLoop_table [] w.files _ st 0 hl (by simp [insertedRows])
  rw [hrun]
  simp only [insertedRows_snoc]
  rw [ht, List.nil_append]

/-- C3: over one run of `ConvertCache`, whatever the cache files and the rows
already in the table, the names of all Locations passed to `BulkInsert` are
pairwise distinct, none is the name of a row in the table at the time of its
call, so no call hits the primary key and the run never returns a
duplicate-key error; after a successful `reset = true` run the table is
exactly the Locations passed, one row per name. -/
theorem ConvertCache_no_duplicate_key (w : World) (reset : Bool) (db : List Location) :
    (names (insertedRows (ConvertCache w reset db).inserts)).Nodup ∧
    (∀ c ∈ (ConvertCache w reset db).inserts, ∀ l ∈ c.2, l.Name ∉ names c.1) ∧
    (∀ c ∈ (ConvertCache w reset db).inserts, keyViolation c.1 c.2 = false) ∧
    (ConvertCache w reset db).err ≠ some Error.DuplicateKey ∧
    ((ConvertCache w true db).err = none →
      (ConvertCache w true db).table = insertedRows (ConvertCache w true db).inserts ∧
      (names (ConvertCache w true db).table).Nodup) := by
  obtain ⟨known, hinv⟩ := ConvertCache_inv w reset db
  have hnd : (names (insertedRows (ConvertCache w reset db).inserts)).Nodup := by
    simpa using hinv.nodup
  have hkey : ∀ c ∈ (ConvertCache w reset db).inserts, keyViolation c.1 c.2 = false := by
    intro c hc
    rw [keyViolation_eq_false]
    refine ⟨hinv.calls c hc, ?_⟩
    have hsub : List.Sublist c.2 (insertedRows (ConvertCache w reset db).inserts) := by
      unfold insertedRows
      exact List.sublist_flatten_of_mem (List.mem_map.2 ⟨c, hc, rfl⟩)
    exact hnd.sublist (hsub.map _)
  refine ⟨hnd, hinv.calls, hkey, ?_, ?_⟩
  · intro he
    rcases ConvertCache_error w reset db _ he with h | ⟨c, hc, fault, hins⟩
    · cases h
    · unfold BulkInsert at hins
      rw [hkey c hc] at hins
      by_cases hb : c.2 = []
      · simp [hb] at hins
      · cases fault <;> simp [hb] at hins
  · intro hok
    obtain ⟨known1, hinv1⟩ := ConvertCache_inv w true db
    have htab := ConvertCache_reset_table w db hok
    refine ⟨htab, ?_⟩
    rw [htab]
    simpa using hinv1.nodup

/-- C3 on a directory with a colliding name: started on a table that already
holds Madrid, the run inserts Hamburg once; with `reset = true` it succeeds
and leaves one row for Hamburg and one for Madrid. -/
theorem ConvertCache_no_duplicate_key_witness :
    (ConvertCache (quietWorld mixedFiles) true [locNamed (lit "Madrid")]).err = none ∧
    names (ConvertCache (quietWorld mixedFiles) true [locNamed (lit "Madrid")]).table
      = [lit "Hamburg", lit "Madrid"] ∧
    names (ConvertCache (quietWorld mixedFiles) false [locNamed (lit "Madrid")]).table
      = [lit "Madrid", lit "Hamburg"] ∧
    (names (ConvertCache (quietWorld mixedFiles) true [locNamed (lit "Madrid")]).table).Nodup :=
  ⟨by decide, by decide, by decide,
   ((ConvertCache_no_duplicate_key (quietWorld mixedFiles) true
      [locNamed (lit "Madrid")]).2.2.2.2 (by decide)).2⟩

/-- C4: no Location passed to `BulkInsert` has a name longer than 25 bytes or a
name with a newline in it, whatever the cache files; so after a successful
`reset = true` run no row of the table has such a name. -/
theorem ConvertCache_names_filtered (w : World) (reset : Bool) (db : List Location) :
    (∀ c ∈ (ConvertCache w reset db).inserts, ∀ l ∈ c.2,
      l.Name.length ≤ 25 ∧ (0x0A : UInt8) ∉ l.Name) ∧
    ((ConvertCache w true db).err = none →
      ∀ row ∈ (ConvertCache w true db).table,
        row.Name.length ≤ 25 ∧ (0x0A : UInt8) ∉ row.Name) := by
  have key : ∀ reset1 : Bool, ∀ l ∈ insertedRows (ConvertCache w reset1 db).inserts,
      l.Name.length ≤ 25 ∧ (0x0A : UInt8) ∉ l.Name := by
    intro reset1 l hl
    obtain ⟨known, hinv⟩ := ConvertCache_inv w reset1 db
    have hv := hinv.valid l (by simpa using hl)
    exact ⟨hv.1, (Contains_newline _).1 hv.2⟩
  constructor
  · intro c hc l hl
    apply key reset l
    unfold insertedRows
    exact List.mem_flatten.2 ⟨c.2, List.mem_map.2 ⟨c, hc, rfl⟩, hl⟩
  · intro hok row hrow
    have htab := ConvertCache_reset_table w db hok
    rw [htab] at hrow
    exact key true row hrow

/-- C4 on a directory with a name of 26 bytes and a name with a newline:
neither reaches the table. -/
theorem ConvertCache_names_filtered_witness :
    (ConvertCache (quietWorld mixedFiles) true []).err = none ∧
    names (ConvertCache (quietWorld mixedFiles) true []).table
      = [lit "Hamburg", lit "Madrid"] ∧
    ∀ row ∈ (ConvertCache (quietWorld mixedFiles) true []).table,
      row.Name.length ≤ 25 ∧ (0x0A : UInt8) ∉ row.Name :=
  ⟨by decide, by decide,
   (ConvertCache_names_filtered (quietWorld mixedFiles) true []).2 (by decide)⟩

/-! ### `ConvertCache`: a directory of valid, distinct entries -/

theorem selectErr_of_not_mem {table : List Location} {name : GoString}
    (h : name ∉ names table) : selectErr table name false = some Error.ErrNoRows := by
  unfold selectErr
  have hany : ¬ table.any (fun row => row.Name == name) = true := by
    intro hany
    obtain ⟨l, hl, hn⟩ := List.any_eq_true.1 hany
    exact h (mem_names.2 ⟨l, hl, by simpa using hn⟩)
  simp [hany]

theorem keyViolation_of_nodup {table block : List Location}
    (h : (names (table ++ block)).Nodup) : keyViolation table block = false := by
  rw [keyViolation_eq_false]
  simp only [names, List.map_append] at h
  rw [List.nodup_append] at h
  exact ⟨fun l hl hmem => h.2.2 hmem (List.mem_map.2 ⟨l, hl, rfl⟩), h.2.1⟩

theorem BulkInsert_of_nodup {table block : List Location}
    (h : (names (table ++ block)).Nodup) (hne : block ≠ []) :
    BulkInsert table block false = Except.ok (table ++ block) := by
  simp [BulkInsert, keyViolation_of_nodup h, hne]

theorem convertLoop_all_accepted (locs : List Location) (st : LoopState) (i : Nat)
    (hnd : (names (st.table ++ st.block ++ locs)).Nodup)
    (hknown : ∀ l ∈ locs, l.Name ∉ st.known)
    (hvalid : ∀ l ∈ locs, l.Name.length ≤ 25 ∧ (0x0A : UInt8) ∉ l.Name) :
    ∃ st1, convertLoop st i (locs.map readable) = (st1, none) ∧
      st1.table ++ st1.block = st.table ++ st.block ++ locs ∧
      insertedRows st1.inserts ++ st1.block = insertedRows st.inserts ++ st.block ++ locs ∧
      st1.inserts.length + (i - 1) / 1000
        = st.inserts.length + (i + locs.length - 1) / 1000 ∧
      (locs ≠ [] →
        (st1.block = [] ↔ (i + locs.length - 1) % 1000 = 0 ∧ i + locs.length - 1 ≠ 0)) := by
  induction locs generalizing st i with
  | nil => exact ⟨st, by simp [convertLoop], by simp, by simp, by simp, by simp⟩
  | cons loc locs ih =>
    have hv := hvalid loc (List.mem_cons_self _ _)
    have hlen : ¬ loc.Name.length > 25 := Nat.not_lt.2 hv.1
    have hk : loc.Name ∉ st.known := hknown loc (List.mem_cons_self _ _)
    have hnd1 : (names (st.table ++ (st.block ++ [loc]) ++ locs)).Nodup := by
      simpa [List.append_assoc] using hnd
    have hnd2 : (names (st.table ++ (st.block ++ [loc]))).Nodup := by
      simp only [names, List.map_append] at hnd1 ⊢
      exact (List.nodup_append.1 hnd1).1
    have hfresh : loc.Name ∉ names st.table := by
      simp only [names, List.map_append, List.map_cons, List.map_nil] at hnd2
      intro hmem
      exact (List.nodup_append.1 hnd2).2.2 hmem (by simp)
    have hsel : selectErr st.table loc.Name (readable loc).selectFault = some Error.ErrNoRows :=
      selectErr_of_not_mem hfresh
    have hnl : Contains loc.Name newline = false := (Contains_newline _).2 hv.2
    have hk1 : ∀ l ∈ locs, l.Name ∉ loc.Name :: st.known := by
      intro l hl hmem
      rw [List.mem_cons] at hmem
      rcases hmem with hEq | hmem
      · simp only [names, List.map_append, List.map_cons] at hnd
        have h3 := (List.nodup_append.1 hnd).2.1
        rw [List.nodup_cons] at h3
        exact h3.1 (hEq ▸ List.mem_map.2 ⟨l, hl, rfl⟩)
      · exact hknown l (List.mem_cons_of_mem _ hl) hmem
    have hv1 : ∀ l ∈ locs, l.Name.length ≤ 25 ∧ (0x0A : UInt8) ∉ l.Name :=
      fun l hl => hvalid l (List.mem_cons_of_mem _ hl)
    simp only [List.map_cons, convertLoop, List.length_cons]
    by_cases hi : i % 1000 ≠ 0 ∨ i = 0
    · rw [loopBody_append st i (readable loc) loc rfl hlen hk hsel hnl hi]
      obtain ⟨st1, h1, h2, h3, h4, h5⟩ := ih
        { st with known := loc.Name :: st.known, block := st.block ++ [loc] } (i + 1)
        hnd1 hk1 hv1
      refine ⟨st1, h1, ?_, ?_, ?_, ?_⟩
      · simpa [List.append_assoc] using h2
      · simpa [List.append_assoc] using h3
      · simp only at h4
        omega
      · intro _
        cases locs with
        | nil =>
          simp only [List.map_nil, convertLoop, Prod.mk.injEq, and_true] at h1
          subst h1
          simp only [List.length_nil, Nat.add_zero, Nat.add_sub_cancel]
          constructor
          · intro hb
            simp at hb
          · intro hflush
            exact absurd hflush (by omega)
        | cons l2 rest =>
          have h6 := h5 (by simp)
          simp only [List.length_cons] at h6 ⊢
          rw [h6]
          have hidx : i + 1 + (rest.length + 1) - 1 = i + (rest.length + 1 + 1) - 1 := by omega
          rw [hidx]
    · rw [loopBody_flush st i (readable loc) loc rfl hlen hk hsel hnl hi]
      have hins : BulkInsert st.table (st.block ++ [loc]) (readable loc).insertFault
          = Except.ok (st.table ++ (st.block ++ [loc])) :=
        BulkInsert_of_nodup hnd2 (by simp)
      rw [hins]
      obtain ⟨st1, h1, h2, h3, h4, h5⟩ := ih
        { table := st.table ++ (st.block ++ [loc]), known := loc.Name :: st.known, block := [],
          inserts := st.inserts ++ [(st.table, st.block ++ [loc])] } (i + 1)
        (by simpa [List.append_assoc] using hnd1) hk1 hv1
      refine ⟨st1, h1, ?_, ?_, ?_, ?_⟩
      · simpa [List.append_assoc] using h2
      · simpa [List.append_assoc, insertedRows_snoc] using h3
      · simp only [List.length_append, List.length_singleton] at h4
        omega
      · intro _
        cases locs with
        | nil =>
          simp only [List.map_nil, convertLoop, Prod.mk.injEq, and_true] at h1
          subst h1
          simp only [List.length_nil, Nat.add_zero, Nat.add_sub_cancel, true_iff]
          omega
        | cons l2 rest =>
          have h6 := h5 (by simp)
          simp only [List.length_cons] at h6 ⊢
          rw [h6]
          have hidx : i + 1 + (rest.length + 1) - 1 = i + (rest.length + 1 + 1) - 1 := by omega
          rw [hidx]

/-- C5: when every file of the directory decodes, the decoded names are
pairwise distinct, at most 25 bytes long and free of newlines, the table is
empty, no OS call fails and the DB answers every call, then the blocks passed
to `BulkInsert` concatenate to the decoded Locations in file order, the table
ends with exactly these rows, and `BulkInsert` is called once per file index
1000, 2000, … and once at the end. The last call gets the Locations that are
still pending; the run returns `nil` unless none is pending (no file at all,
or a last file of index 1000, 2000, …), in which case the last call is refused
for its empty block and the rows are in the table all the same. -/
theorem ConvertCache_inserts_all (locs : List Location) (reset : Bool) (db : List Location)
    (hempty : reset = true ∨ db = [])
    (hnd : (names locs).Nodup)
    (hvalid : ∀ l ∈ locs, l.Name.length ≤ 25 ∧ (0x0A : UInt8) ∉ l.Name) :
    insertedRows (ConvertCache (quietWorld (locs.map readable)) reset db).inserts = locs ∧
    (ConvertCache (quietWorld (locs.map readable)) reset db).table = locs ∧
    (ConvertCache (quietWorld (locs.map readable)) reset db).table.length = locs.length ∧
    (ConvertCache (quietWorld (locs.map readable)) reset db).inserts.length
      = (locs.length - 1) / 1000 + 1 ∧
    (ConvertCache (quietWorld (locs.map readable)) reset db).err
      = (if locs.length = 0 ∨ ((locs.length - 1) % 1000 = 0 ∧ locs.length - 1 ≠ 0)
         then some Error.MissingValues else none) := by
  have ht0 : (if reset = true then [] else db) = ([] : List Location) := by
    rcases hempty with h | h
    · simp [h]
    · simp [h]
  have hrun := ConvertCache_run (quietWorld (locs.map readable)) reset db
    (by simp [quietWorld]) rfl (by simp [quietWorld]) rfl
  rw [ht0] at hrun
  obtain ⟨st1, h1, h2, h3, h4, h5⟩ := convertLoop_all_accepted locs
    { table := [], known := [], block := [], inserts := [] } 0
    (by simpa using hnd) (by simp) hvalid
  have hfiles : (quietWorld (locs.map readable)).files = locs.map readable := rfl
  rw [hfiles, h1] at hrun
  simp only [List.nil_append, insertedRows, List.map_nil, List.flatten_nil] at h2 h3
  have hlast : (quietWorld (locs.map readable)).lastInsertFault = false := rfl
  have hblock : st1.block = [] ↔
      (locs.length = 0 ∨ ((locs.length - 1) % 1000 = 0 ∧ locs.length - 1 ≠ 0)) := by
    cases hl : locs with
    | nil =>
      subst hl
      simp only [List.map_nil, convertLoop, Prod.mk.injEq, and_true] at h1
      subst h1
      simp
    | cons l rest =>
      have h6 := h5 (by simp [hl])
      rw [hl] at h6
      simp only [Nat.zero_add] at h6
      rw [h6]
      simp
  by_cases hb : st1.block = []
  · have hins : BulkInsert st1.table st1.block (quietWorld (locs.map readable)).lastInsertFault
        = Except.error Error.MissingValues := by
      simp [BulkInsert, hb]
    simp only [hins] at hrun
    rw [hrun]
    rw [hb, List.append_nil] at h2 h3
    refine ⟨?_, h2, by rw [h2], ?_, ?_⟩
    · rw [insertedRows_snoc, hb, List.append_nil]
      exact h3
    · simp only [List.length_append, List.length_singleton, List.length_nil] at h4 ⊢
      omega
    · rw [if_pos (hblock.1 hb)]
  · have hins : BulkInsert st1.table st1.block (quietWorld (locs.map readable)).lastInsertFault
        = Except.ok (st1.table ++ st1.block) :=
      BulkInsert_of_nodup (by rw [h2]; exact hnd) hb
    simp only [hins] at hrun
    rw [hrun]
    refine ⟨?_, h2, by rw [h2], ?_, ?_⟩
    · rw [insertedRows_snoc]
      exact h3
    · simp only [List.length_append, List.length_singleton, List.length_nil] at h4 ⊢
      omega
    · rw [if_neg (fun h => hb (hblock.2 h))]

theorem manyLocs_digit_inj : ∀ a < 50, ∀ b < 50,
    UInt8.ofNat (48 + a) = UInt8.ofNat (48 + b) → a = b := by
  decide

theorem manyLocs_digit_ne : ∀ a < 50, (0x0A : UInt8) ≠ UInt8.ofNat (48 + a) := by
  decide

theorem manyLocs_nodup : (names (manyLocs 2500)).Nodup := by
  unfold names manyLocs
  rw [List.map_map]
  refine List.Nodup.map_on ?_ (List.nodup_range 2500)
  intro j hj k hk hEq
  rw [List.mem_range] at hj hk
  simp only [Function.comp, locNamed, List.cons.injEq, and_true] at hEq
  have h1 := manyLocs_digit_inj (j / 50) (by omega) (k / 50) (by omega) hEq.1
  have h2 := manyLocs_digit_inj (j % 50) (Nat.mod_lt _ (by decide)) (k % 50)
    (Nat.mod_lt _ (by decide)) hEq.2
  omega

theorem manyLocs_valid : ∀ l ∈ manyLocs 2500, l.Name.length ≤ 25 ∧ (0x0A : UInt8) ∉ l.Name := by
  intro l hl
  unfold manyLocs at hl
  obtain ⟨k, hk, rfl⟩ := List.mem_map.1 hl
  rw [List.mem_range] at hk
  refine ⟨by simp [locNamed], ?_⟩
  simp only [locNamed, List.mem_cons, List.mem_singleton, List.not_mem_nil, or_false, not_or]
  exact ⟨manyLocs_digit_ne (k / 50) (by omega),
    manyLocs_digit_ne (k % 50) (Nat.mod_lt _ (by decide))⟩

/-- C5 for 2500 files: the run returns `nil`, leaves 2500 rows, and calls
`BulkInsert` three times (after the files of index 1000 and 2000, and at the
end). -/
theorem ConvertCache_inserts_all_witness :
    (manyLocs 2500).length = 2500 ∧
    (ConvertCache (quietWorld ((manyLocs 2500).map readable)) true []).err = none ∧
    (ConvertCache (quietWorld ((manyLocs 2500).map readable)) true []).table.length = 2500 ∧
    (ConvertCache (quietWorld ((manyLocs 2500).map readable)) true []).inserts.length = 3 := by
  have hlen : (manyLocs 2500).length = 2500 := by simp [manyLocs]
  have h := ConvertCache_inserts_all (manyLocs 2500) true [] (Or.inl rfl)
    manyLocs_nodup manyLocs_valid
  refine ⟨hlen, ?_, ?_, ?_⟩
  · rw [h.2.2.2.2, hlen]
    decide
  · rw [h.2.2.1, hlen]
  · rw [h.2.2.2.1, hlen]

/-! ### `ConvertCache`: running again without reset -/

theorem selectErr_found {table : List Location} {name : GoString}
    (h : selectErr table name false ≠ some Error.ErrNoRows) : name ∈ names table := by
  by_contra hn
  exact h (selectErr_of_not_mem hn)

theorem loopBody_cover (st st1 : LoopState) (i : Nat) (file : CacheFile)
    (hb : loopBody st i file = (st1, none)) (hq : file.selectFault = false)
    (hK : ∀ n ∈ st.known, Contains n newline = false → n ∈ names (st.table ++ st.block)) :
    (∀ n ∈ st1.known, Contains n newline = false → n ∈ names (st1.table ++ st1.block)) ∧
    (∀ n ∈ names (st.table ++ st.block), n ∈ names (st1.table ++ st1.block)) ∧
    (∀ l, file.read = some l → l.Name.length ≤ 25 → Contains l.Name newline = false →
      l.Name ∈ names (st1.table ++ st1.block)) := by
  rcases loopBody_cases st i file with ⟨h, hwhy⟩ | ⟨loc, hread, hlen, hknown, hsel, h⟩
  · rw [h] at hb
    cases hb
    refine ⟨hK, fun n hn => hn, ?_⟩
    intro l hl hlen hnl
    rcases hwhy with hnone | ⟨loc, hread, hlong | hkn | hsel⟩
    · rw [hnone] at hl
      cases hl
    · rw [hread] at hl
      cases hl
      omega
    · rw [hread] at hl
      cases hl
      exact hK _ hkn hnl
    · rw [hread] at hl
      cases hl
      rw [hq] at hsel
      have := selectErr_found hsel
      simp only [names, List.map_append, List.mem_append]
      exact Or.inl this
  · rcases h with ⟨hnl, h⟩ | ⟨hnl, _, h⟩ | ⟨_, _, e, _, h⟩ | ⟨hnl, _, _, h⟩
    · rw [h] at hb
      cases hb
      refine ⟨?_, fun n hn => hn, ?_⟩
      · intro n hn hnn
        rw [List.mem_cons] at hn
        rcases hn with rfl | hn
        · rw [hnl] at hnn
          cases hnn
        · exact hK n hn hnn
      · intro l hl _ hnl1
        rw [hread] at hl
        cases hl
        rw [hnl] at hnl1
        cases hnl1
    · rw [h] at hb
      cases hb
      refine ⟨?_, ?_, ?_⟩
      · intro n hn hnn
        rw [List.mem_cons] at hn
        rcases hn with rfl | hn
        · simp [names]
        · have := hK n hn hnn
          simp only [names, List.map_append, List.mem_append] at this ⊢
          tauto
      · intro n hn
        simp only [names, List.map_append, List.mem_append] at hn ⊢
        tauto
      · intro l hl _ _
        rw [hread] at hl
        cases hl
        simp [names]
    · rw [h] at hb
      cases hb
    · rw [h] at hb
      cases hb
      refine ⟨?_, ?_, ?_⟩
      · intro n hn hnn
        rw [List.mem_cons] at hn
        rcases hn with rfl | hn
        · simp [names]
        · have := hK n hn hnn
          simp only [names, List.map_append, List.mem_append] at this ⊢
          tauto
      · intro n hn
        simp only [names, List.map_append, List.mem_append] at hn ⊢
        tauto
      · intro l hl _ _
        rw [hread] at hl
        cases hl
        simp [names]

theorem convertLoop_cover (files : List CacheFile) (st st1 : LoopState) (i : Nat)
    (hl : convertLoop st i files = (st1, none))
    (hq : ∀ f ∈ files, f.selectFault = false)
    (hK : ∀ n ∈ st.known, Contains n newline = false → n ∈ names (st.table ++ st.block)) :
    (∀ n ∈ names (st.table ++ st.block), n ∈ names (st1.table ++ st1.block)) ∧
    (∀ f ∈ files, ∀ l, f.read = some l → l.Name.length ≤ 25 →
      Contains l.Name newline = false → l.Name ∈ names (st1.table ++ st1.block)) := by
  induction files generalizing st i with
  | nil =>
    simp only [convertLoop] at hl
    cases hl
    exact ⟨fun n hn => hn, by simp⟩
  | cons file files ih =>
    unfold convertLoop at hl
    cases hb : loopBody st i file with
    | mk st2 e =>
      rw [hb] at hl
      cases e with
      | some e => simp at hl
      | none =>
        obtain ⟨hK2, hmono, hfile⟩ :=
          loopBody_cover st st2 i file hb (hq file (List.mem_cons_self _ _)) hK
        obtain ⟨hmono2, hrest⟩ :=
          ih st2 (i + 1) hl (fun f hf => hq f (List.mem_cons_of_mem _ hf)) hK2
        refine ⟨fun n hn => hmono2 n (hmono n hn), ?_⟩
        intro f hf l hread hlen hnl
        rw [List.mem_cons] at hf
        rcases hf with rfl | hf
        · exact hmono2 _ (hfile l hread hlen hnl)
        · exact hrest f hf l hread hlen hnl

theorem convertLoop_all_skipped (table : List Location) (files : List CacheFile)
    (hT : ∀ f ∈ files, ∀ l, f.read = some l → l.Name.length ≤ 25 →
      Contains l.Name newline = false → l.Name ∈ names table)
    (st : LoopState) (i : Nat) (htable : st.table = table) (hblock : st.block = []) :
    ∃ st1, convertLoop st i files = (st1, none) ∧ st1.table = table ∧ st1.block = [] ∧
      st1.inserts = st.inserts := by
  induction files generalizing st i with
  | nil => exact ⟨st, by simp [convertLoop], htable, hblock, rfl⟩
  | cons file files ih =>
    have hT1 : ∀ f ∈ files, ∀ l, f.read = some l → l.Name.length ≤ 25 →
        Contains l.Name newline = false → l.Name ∈ names table :=
      fun f hf => hT f (List.mem_cons_of_mem _ hf)
    have hno : ∀ loc, file.read = some loc → ¬ loc.Name.length > 25 →
        selectErr st.table loc.Name file.selectFault = some Error.ErrNoRows →
        Contains loc.Name newline = false → False := by
      intro loc hread hlen hsel hnl
      have h1 := (selectErr_noRows hsel).2
      rw [htable] at h1
      exact h1 (hT file (List.mem_cons_self _ _) loc hread (Nat.le_of_not_gt hlen) hnl)
    unfold convertLoop
    rcases loopBody_cases st i file with ⟨h, _⟩ | ⟨loc, hread, hlen, hknown, hsel, h⟩
    · rw [h]
      exact ih hT1 st (i + 1) htable hblock
    · rcases h with ⟨hnl, h⟩ | ⟨hnl, _, h⟩ | ⟨hnl, _, e, _, h⟩ | ⟨hnl, _, _, h⟩
      · rw [h]
        exact ih hT1 { st with known := loc.Name :: st.known } (i + 1) htable hblock
      · exact absurd (hno loc hread hlen hsel hnl) id
      · exact absurd (hno loc hread hlen hsel hnl) id
      · exact absurd (hno loc hread hlen hsel hnl) id

/-- Running again is a no-op when the DB answered every existence query of the
first run: after a run that returned success and in which no existence query
failed with a DB error, a run with `reset = false` over the same directory
passes only empty blocks to `BulkInsert` and leaves the rows of the table as
they are. -/
theorem ConvertCache_rerun_skips_all (w1 w2 : World) (reset : Bool) (db : List Location)
    (hok : (ConvertCache w1 reset db).err = none)
    (hq : ∀ f ∈ w1.files, f.selectFault = false)
    (hdir : w2.files.map (fun f => f.read) = w1.files.map (fun f => f.read)) :
    (∀ c ∈ (ConvertCache w2 false (ConvertCache w1 reset db).table).inserts, c.2 = []) ∧
    (ConvertCache w2 false (ConvertCache w1 reset db).table).table
      = (ConvertCache w1 reset db).table := by
  obtain ⟨st, hl, _, hrun⟩ := ConvertCache_success w1 reset db hok
  have hcov := (convertLoop_cover w1.files _ st 0 hl hq (by simp)).2
  rw [hrun]
  simp only
  generalize st.table ++ st.block = table at hcov
  have hT : ∀ f ∈ w2.files, ∀ l, f.read = some l → l.Name.length ≤ 25 →
      Contains l.Name newline = false → l.Name ∈ names table := by
    intro f hf l hread hlen hnl
    have hmem : f.read ∈ w2.files.map (fun f => f.read) := List.mem_map.2 ⟨f, hf, rfl⟩
    rw [hdir] at hmem
    obtain ⟨g, hg, hgr⟩ := List.mem_map.1 hmem
    exact hcov g hg l (by rw [hgr, hread]) hlen hnl
  by_cases hopen : w2.openFault = true
  · simp [ConvertCache, hopen]
  by_cases hglob : w2.globFault = true
  · simp [ConvertCache, hopen, hglob]
  have hrun2 := ConvertCache_run w2 false table rfl (by simpa using hopen) rfl
    (by simpa using hglob)
  obtain ⟨st2, h1, h2, h3, h4⟩ := convertLoop_all_skipped table w2.files hT
    { table := table, known := [], block := [], inserts := [] } 0 rfl rfl
  simp only [Bool.false_eq_true, if_false] at hrun2
  rw [h1] at hrun2
  simp only [h2, h3, h4] at hrun2
  rw [hrun2]
  cases hins : BulkInsert table [] w2.lastInsertFault with
  | error e => simp
  | ok table1 =>
    have := BulkInsert_ok hins
    simp [this]

/-- The rerun on the mixed directory: the second run passes one empty block. -/
theorem ConvertCache_rerun_skips_all_witness :
    (ConvertCache (quietWorld mixedFiles) true []).err = none ∧
    (ConvertCache (quietWorld mixedFiles) false
        (ConvertCache (quietWorld mixedFiles) true []).table).inserts
      = [([locNamed (lit "Hamburg"), locNamed (lit "Madrid")], [])] ∧
    (ConvertCache (quietWorld mixedFiles) false
        (ConvertCache (quietWorld mixedFiles) true []).table).table
      = (ConvertCache (quietWorld mixedFiles) true []).table :=
  ⟨by decide, by decide,
   (ConvertCache_rerun_skips_all (quietWorld mixedFiles) (quietWorld mixedFiles) true []
      (by decide) (by decide) rfl).2⟩

/-- C6 on a directory of two files, Madrid and Hamburg. In the first run the
existence query for Hamburg fails with a DB error: Hamburg is skipped as
"found in db", Madrid is inserted and the run returns `nil`. The second run,
with `reset = false` over the same directory and a DB that answers, passes
Hamburg to `BulkInsert`: a block that is not empty, and a table with one row
more. -/
theorem ConvertCache_rerun_inserts_after_query_error :
    ConvertCache (quietWorld queryFailsOnSecond) true []
      = { table := [locNamed (lit "Madrid")],
          inserts := [([], [locNamed (lit "Madrid")])], err := none } ∧
    queryFailsOnSecondAgain.map (fun f => f.read)
      = queryFailsOnSecond.map (fun f => f.read) ∧
    ConvertCache (quietWorld queryFailsOnSecondAgain) false
        (ConvertCache (quietWorld queryFailsOnSecond) true []).table
      = { table := [locNamed (lit "Madrid"), locNamed (lit "Hamburg")],
          inserts := [([locNamed (lit "Madrid")], [locNamed (lit "Hamburg")])],
          err := none } ∧
    (ConvertCache (quietWorld queryFailsOnSecondAgain) false
        (ConvertCache (quietWorld queryFailsOnSecond) true []).table).table
      ≠ (ConvertCache (quietWorld queryFailsOnSecond) true []).table := by
  decide

/-! ### `ConvertCache`: when the block is flushed -/

theorem convertLoop_single (st : LoopState) (i : Nat) (file : CacheFile) :
    convertLoop st i [file] = loopBody st i file := by
  unfold convertLoop
  cases hb : loopBody st i file with
  | mk st1 e => cases e <;> simp [convertLoop]

theorem convertLoop_append (files1 files2 : List CacheFile) (st : LoopState) (i : Nat) :
    convertLoop st i (files1 ++ files2)
      = match convertLoop st i files1 with
        | (st1, some e) => (st1, some e)
        | (st1, none) => convertLoop st1 (i + files1.length) files2 := by
  induction files1 generalizing st i with
  | nil => simp [convertLoop]
  | cons file files1 ih =>
    simp only [List.cons_append, convertLoop, List.length_cons, List.append_eq]
    cases hb : loopBody st i file with
    | mk st1 e =>
      cases e with
      | some e => rfl
      | none =>
        simp only
        rw [ih st1 (i + 1)]
        have : i + 1 + files1.length = i + (files1.length + 1) := by omega
        rw [this]

/-- The state after the file of index `i` is the loop body run on the state
after the files before it. -/
theorem convertLoop_take_succ (files : List CacheFile) (st0 st : LoopState) (i : Nat)
    (file : CacheFile) (hfile : files[i]? = some file)
    (hbefore : convertLoop st0 0 (files.take i) = (st, none)) :
    convertLoop st0 0 (files.take (i + 1)) = loopBody st i file := by
  have hlt : i < files.length := by
    by_contra hge
    rw [List.getElem?_eq_none (Nat.le_of_not_lt hge)] at hfile
    cases hfile
  have htake : files.take (i + 1) = files.take i ++ [file] := by
    rw [List.take_succ, hfile]
    rfl
  rw [htake, convertLoop_append, hbefore]
  simp only [List.length_take, Nat.zero_add, Nat.min_eq_left (Nat.le_of_lt hlt)]
  exact convertLoop_single st i file

/-- C9, as the code has it: at a file index `i > 0` with `i % 1000 == 0` the
block is passed to `BulkInsert` when file `i` reaches the append (it decodes,
its name is at most 25 bytes, not known, not found by the existence query and
free of newlines), the block then ending in that file's Location, and it is
reset to empty when the insert succeeds; when file `i` is skipped, no call of
`BulkInsert` is made and block and table stay as they were. -/
theorem ConvertCache_flush_at_thousand (table0 : List Location) (files : List CacheFile)
    (i : Nat) (file : CacheFile) (st : LoopState)
    (hfile : files[i]? = some file) (hpos : 0 < i) (hmod : i % 1000 = 0)
    (hbefore : convertLoop { table := table0, known := [], block := [], inserts := [] } 0
      (files.take i) = (st, none)) :
    (∀ loc, file.read = some loc → loc.Name.length ≤ 25 → loc.Name ∉ st.known →
      selectErr st.table loc.Name file.selectFault = some Error.ErrNoRows →
      Contains loc.Name newline = false →
      (convertLoop { table := table0, known := [], block := [], inserts := [] } 0
          (files.take (i + 1))).1.inserts
        = st.inserts ++ [(st.table, st.block ++ [loc])] ∧
      (file.insertFault = false →
        convertLoop { table := table0, known := [], block := [], inserts := [] } 0
            (files.take (i + 1))
          = ({ table := st.table ++ (st.block ++ [loc]), known := loc.Name :: st.known,
               block := [],
               inserts := st.inserts ++ [(st.table, st.block ++ [loc])] }, none))) ∧
    ((file.read = none ∨ ∃ loc, file.read = some loc ∧
        (loc.Name.length > 25 ∨ loc.Name ∈ st.known ∨
          selectErr st.table loc.Name file.selectFault ≠ some Error.ErrNoRows ∨
          Contains loc.Name newline = true)) →
      (convertLoop { table := table0, known := [], block := [], inserts := [] } 0
          (files.take (i + 1))).1.inserts = st.inserts ∧
      (convertLoop { table := table0, known := [], block := [], inserts := [] } 0
          (files.take (i + 1))).1.block = st.block ∧
      (convertLoop { table := table0, known := [], block := [], inserts := [] } 0
          (files.take (i + 1))).1.table = st.table ∧
      (convertLoop { table := table0, known := [], block := [], inserts := [] } 0
          (files.take (i + 1))).2 = none) := by
  rw [convertLoop_take_succ files _ st i file hfile hbefore]
  have hi : ¬ (i % 1000 ≠ 0 ∨ i = 0) := by omega
  constructor
  · intro loc hread hlen hknown hsel hnl
    have hlen1 : ¬ loc.Name.length > 25 := Nat.not_lt.2 hlen
    have hfl := loopBody_flush st i file loc hread hlen1 hknown hsel hnl hi
    rw [hfl]
    constructor
    · cases BulkInsert st.table (st.block ++ [loc]) file.insertFault <;> rfl
    · intro hfault
      have hinv := convertLoop_inv table0 (files.take i)
        { table := table0, known := [], block := [], inserts := [] } 0 (Inv.init table0)
      rw [hbefore] at hinv
      simp only [Option.isSome_none, Bool.false_eq_true, if_false] at hinv
      have hacc := hinv.accept loc hlen1 hknown (selectErr_noRows hsel).2 hnl
      have hkey : keyViolation st.table (st.block ++ [loc]) = false := by
        rw [keyViolation_eq_false]
        refine ⟨hacc.fresh, ?_⟩
        have hnd := hacc.nodup
        simp only [names] at hnd ⊢
        rw [List.map_append] at hnd
        exact (List.nodup_append.1 hnd).2.1
      simp [BulkInsert, hfault, hkey]
  · intro hskip
    rcases hskip with hnone | ⟨loc, hread, hlong | hkn | hsel | hnl⟩
    · rw [loopBody_unreadable st i file hnone]
      exact ⟨rfl, rfl, rfl, rfl⟩
    · rw [loopBody_long st i file loc hread hlong]
      exact ⟨rfl, rfl, rfl, rfl⟩
    · rw [loopBody_known st i file loc hread hkn]
      exact ⟨rfl, rfl, rfl, rfl⟩
    · rw [loopBody_found st i file loc hread hsel]
      exact ⟨rfl, rfl, rfl, rfl⟩
    · rcases loopBody_cases st i file with ⟨h, _⟩ | ⟨loc1, hread1, _, _, _, h⟩
      · rw [h]
        exact ⟨rfl, rfl, rfl, rfl⟩
      · rw [hread] at hread1
        cases hread1
        rcases h with ⟨_, h⟩ | ⟨hnl1, _, _⟩ | ⟨hnl1, _, _⟩ | ⟨hnl1, _, _⟩
        · rw [h]
          exact ⟨rfl, rfl, rfl, rfl⟩
        · rw [hnl] at hnl1
          cases hnl1
        · rw [hnl] at hnl1
          cases hnl1
        · rw [hnl] at hnl1
          cases hnl1

theorem replicate_cons_getElem (m k : Nat) (a b : CacheFile) (h : k < m) :
    (a :: List.replicate m b)[k + 1]? = some b := by
  rw [List.getElem?_cons_succ, List.getElem?_replicate]
  simp [h]

theorem replicate_cons_take (m k : Nat) (a b : CacheFile) (h : k ≤ m) :
    (a :: List.replicate m b).take (k + 1) = a :: List.replicate k b := by
  rw [List.take_succ_cons, List.take_replicate, Nat.min_eq_left h]

theorem replicate_cons_length (n : Nat) (a b : CacheFile) :
    (a :: List.replicate n b).length = n + 1 := by
  rw [List.length_cons, List.length_replicate]

theorem convertLoop_unreadable (n : Nat) (st : LoopState) (i : Nat) :
    convertLoop st i (List.replicate n unreadable) = (st, none) := by
  induction n generalizing i with
  | zero => simp [convertLoop]
  | succ n ih =>
    simp only [List.replicate_succ, convertLoop]
    rw [loopBody_unreadable st i unreadable rfl]
    exact ih (i + 1)

theorem loopBody_first_hamburg :
    loopBody { table := [], known := [], block := [], inserts := [] } 0
        (readable (locNamed (lit "Hamburg")))
      = ({ table := [], known := [lit "Hamburg"], block := [locNamed (lit "Hamburg")],
           inserts := [] }, none) := by
  decide

theorem convertLoop_skippedAtThousand (k : Nat) (h : k ≤ 3000) :
    convertLoop { table := [], known := [], block := [], inserts := [] } 0
        (skippedAtThousand.take (k + 1))
      = ({ table := [], known := [lit "Hamburg"], block := [locNamed (lit "Hamburg")],
           inserts := [] }, none) := by
  have htake : skippedAtThousand.take (k + 1)
      = readable (locNamed (lit "Hamburg")) :: List.replicate k unreadable :=
    replicate_cons_take 3000 k _ _ h
  rw [htake]
  unfold convertLoop
  rw [loopBody_first_hamburg]
  exact convertLoop_unreadable k _ 1

/-- C9 as stated fails: in a directory of 3001 files whose files of index 1000,
2000 and 3000 are skipped, the loop has made no call of `BulkInsert` after the
file of index 1000, nor after the last file, and the block still holds the
Location of file 0. -/
theorem ConvertCache_no_flush_when_skipped :
    skippedAtThousand.length = 3001 ∧
    skippedAtThousand[1000]? = some unreadable ∧
    convertLoop { table := [], known := [], block := [], inserts := [] } 0
        (skippedAtThousand.take (1000 + 1))
      = ({ table := [], known := [lit "Hamburg"], block := [locNamed (lit "Hamburg")],
           inserts := [] }, none) ∧
    convertLoop { table := [], known := [], block := [], inserts := [] } 0
        (skippedAtThousand.take (3000 + 1))
      = ({ table := [], known := [lit "Hamburg"], block := [locNamed (lit "Hamburg")],
           inserts := [] }, none) :=
  ⟨replicate_cons_length 3000 _ _, replicate_cons_getElem 3000 999 _ _ (by decide),
   convertLoop_skippedAtThousand 1000 (by decide),
   convertLoop_skippedAtThousand 3000 (by decide)⟩

theorem replicate_append_getElem (n : Nat) (a b : CacheFile) :
    (List.replicate n a ++ [b])[n]? = some b := by
  rw [List.getElem?_append_right (by rw [List.length_replicate])]
  simp

theorem replicate_append_take (n : Nat) (a b : CacheFile) :
    (List.replicate n a ++ [b]).take n = List.replicate n a := by
  rw [List.take_append_of_le_length (by rw [List.length_replicate]), List.take_replicate]
  simp

/-- C9 on two directories. When the file of index 1000 is skipped, no call is
made and block and table are untouched; when it is the first file accepted,
the block that holds it is inserted and reset. -/
theorem ConvertCache_flush_at_thousand_witness :
    ((convertLoop { table := [], known := [], block := [], inserts := [] } 0
        (skippedAtThousand.take (1000 + 1))).1.inserts = [] ∧
     (convertLoop { table := [], known := [], block := [], inserts := [] } 0
        (skippedAtThousand.take (1000 + 1))).1.block = [locNamed (lit "Hamburg")]) ∧
    convertLoop { table := [], known := [], block := [], inserts := [] } 0
        (acceptedAtThousand.take (1000 + 1))
      = ({ table := [locNamed (lit "Hamburg")], known := [lit "Hamburg"], block := [],
           inserts := [([], [locNamed (lit "Hamburg")])] }, none) := by
  have hfile : skippedAtThousand[1000]? = some unreadable :=
    replicate_cons_getElem 3000 999 _ _ (by decide)
  have hbefore : convertLoop { table := [], known := [], block := [], inserts := [] } 0
      (skippedAtThousand.take 1000)
      = ({ table := [], known := [lit "Hamburg"], block := [locNamed (lit "Hamburg")],
           inserts := [] }, none) :=
    convertLoop_skippedAtThousand 999 (by decide)
  have h := (ConvertCache_flush_at_thousand [] skippedAtThousand 1000 unreadable _ hfile
    (by decide) (by decide) hbefore).2 (Or.inl rfl)
  have hfile2 : acceptedAtThousand[1000]? = some (readable (locNamed (lit "Hamburg"))) :=
    replicate_append_getElem 1000 _ _
  have hbefore2 : convertLoop { table := [], known := [], block := [], inserts := [] } 0
      (acceptedAtThousand.take 1000)
      = ({ table := [], known := [], block := [], inserts := [] }, none) := by
    have htake : acceptedAtThousand.take 1000 = List.replicate 1000 unreadable :=
      replicate_append_take 1000 _ _
    rw [htake]
    exact convertLoop_unreadable 1000 _ 0
  have h2 := ((ConvertCache_flush_at_thousand [] acceptedAtThousand 1000
    (readable (locNamed (lit "Hamburg"))) _ hfile2 (by decide) (by decide) hbefore2).1
    (locNamed (lit "Hamburg")) rfl (by decide) (by decide) (by decide) (by decide)).2 rfl
  exact ⟨⟨h.1, h.2.1⟩, h2⟩

/-! ### `ConvertCache`: when the existence query fails -/

/-- C10, what the code does: when the existence query fails with an error
other than `sql.ErrNoRows`, the loop body leaves the state as it was: the
entry is skipped under "found in db", whether or not a row has its name. In a
run over Madrid and Hamburg on an empty table where the query for Hamburg
fails, only Madrid is inserted and the run returns `nil`. -/
theorem loopBody_query_error_skips (st : LoopState) (i : Nat) (loc : Location)
    (insertFault : Bool) :
    loopBody st i { read := some loc, selectFault := true, insertFault := insertFault }
      = (st, none) ∧
    selectErr [] (lit "Hamburg") true = some Error.Fault ∧
    ConvertCache (quietWorld queryFailsOnSecond) true []
      = { table := [locNamed (lit "Madrid")],
          inserts := [([], [locNamed (lit "Madrid")])], err := none } := by
  refine ⟨?_, by decide, by decide⟩
  rcases loopBody_cases st i
      { read := some loc, selectFault := true, insertFault := insertFault }
    with ⟨h, _⟩ | ⟨loc1, _, _, _, hsel, _⟩
  · exact h
  · have := (selectErr_noRows hsel).1
    cases this

/-! ### `NewAddressFromString` -/

theorem getD_of_take_eq {parts1 parts2 : List GoString} {n : Nat}
    (h : parts1.take n = parts2.take n) (k : Nat) (hk : k < n) :
    parts1.getD k [] = parts2.getD k [] := by
  have h1 : (parts1.take n).getD k [] = parts1.getD k [] := by
    simp [List.getD_eq_getElem?_getD, List.getElem?_take, hk]
  have h2 : (parts2.take n).getD k [] = parts2.getD k [] := by
    simp [List.getD_eq_getElem?_getD, List.getElem?_take, hk]
  rw [← h1, ← h2, h]

theorem length_of_take_eq {parts1 parts2 : List GoString} {n : Nat}
    (h : parts1.take n = parts2.take n) (hlen : n ≤ parts1.length) : n ≤ parts2.length := by
  have h1 := congrArg List.length h
  simp only [List.length_take] at h1
  omega

/-- C7: a record with at least 6 fields whose fields 4 and 5 parse as floats
gives an `Address` with the caller's `ip`, fields 0..3 verbatim and the two
parsed values; any record with the same first six fields gives the same
result, whatever its further fields. -/
theorem NewAddressFromString_coordinates {F : Type} (parseFloat : GoString → Option F)
    (unknown : F) (ip record : GoString) (lat long : F)
    (hfields : 6 ≤ (Split record semicolon).length)
    (hlat : parseFloat ((Split record semicolon).getD 4 []) = some lat)
    (hlong : parseFloat ((Split record semicolon).getD 5 []) = some long) :
    NewAddressFromString parseFloat unknown ip record
      = Except.ok { IP := ip,
                    CountryCode := (Split record semicolon).getD 0 [],
                    Country := (Split record semicolon).getD 1 [],
                    Region := (Split record semicolon).getD 2 [],
                    City := (Split record semicolon).getD 3 [],
                    Latitude := lat, Longitude := long } ∧
    ∀ record1 : GoString,
      (Split record1 semicolon).take 6 = (Split record semicolon).take 6 →
      NewAddressFromString parseFloat unknown ip record1
        = NewAddressFromString parseFloat unknown ip record := by
  have key : ∀ r : GoString, 6 ≤ (Split r semicolon).length →
      parseFloat ((Split r semicolon).getD 4 []) = some lat →
      parseFloat ((Split r semicolon).getD 5 []) = some long →
      NewAddressFromString parseFloat unknown ip r
        = Except.ok { IP := ip,
                      CountryCode := (Split r semicolon).getD 0 [],
                      Country := (Split r semicolon).getD 1 [],
                      Region := (Split r semicolon).getD 2 [],
                      City := (Split r semicolon).getD 3 [],
                      Latitude := lat, Longitude := long } := by
    intro r h6 h4 h5
    have hn4 : ¬ (Split r semicolon).length < 4 := by omega
    simp only [NewAddressFromString, if_neg hn4, ge_iff_le, if_pos h6, h4, h5]
  refine ⟨key record hfields hlat hlong, ?_⟩
  intro record1 htake
  have h6 : 6 ≤ (Split record1 semicolon).length := length_of_take_eq htake.symm hfields
  rw [key record hfields hlat hlong,
    key record1 h6 (by rw [getD_of_take_eq htake 4 (by decide)]; exact hlat)
      (by rw [getD_of_take_eq htake 5 (by decide)]; exact hlong),
    getD_of_take_eq htake 0 (by decide), getD_of_take_eq htake 1 (by decide),
    getD_of_take_eq htake 2 (by decide), getD_of_take_eq htake 3 (by decide)]

/-- C7 on the records of the test: Hamburg (6 fields) and Madrid (9 fields). -/
theorem NewAddressFromString_coordinates_witness :
    NewAddressFromString parseDecimal unknownCoordinate (lit "1.2.3.4")
        (lit "DE;Germany;Free and Hanseatic City of Hamburg;Hamburg;53.5736;9.9782")
      = Except.ok { IP := lit "1.2.3.4", CountryCode := lit "DE", Country := lit "Germany",
                    Region := lit "Free and Hanseatic City of Hamburg", City := lit "Hamburg",
                    Latitude := { neg := false, digits := 535736, scale := 4 },
                    Longitude := { neg := false, digits := 99782, scale := 4 } } ∧
    NewAddressFromString parseDecimal unknownCoordinate (lit "1.2.3.4")
        (lit "ES;Spain;Madrid, Comunidad de;Madrid;40.4165;-3.70256;28223;Orange Espagne SA;orange.es")
      = Except.ok { IP := lit "1.2.3.4", CountryCode := lit "ES", Country := lit "Spain",
                    Region := lit "Madrid, Comunidad de", City := lit "Madrid",
                    Latitude := { neg := false, digits := 404165, scale := 4 },
                    Longitude := { neg := true, digits := 370256, scale := 5 } } ∧
    NewAddressFromString parseDecimal unknownCoordinate (lit "1.2.3.4")
        (lit "ES;Spain;Madrid, Comunidad de;Madrid;40.4165;-3.70256")
      = NewAddressFromString parseDecimal unknownCoordinate (lit "1.2.3.4")
        (lit "ES;Spain;Madrid, Comunidad de;Madrid;40.4165;-3.70256;28223;Orange Espagne SA;orange.es") :=
  ⟨(NewAddressFromString_coordinates parseDecimal unknownCoordinate (lit "1.2.3.4")
      (lit "DE;Germany;Free and Hanseatic City of Hamburg;Hamburg;53.5736;9.9782")
      { neg := false, digits := 535736, scale := 4 } { neg := false, digits := 99782, scale := 4 }
      (by decide) (by decide) (by decide)).1.trans (congrArg Except.ok (by decide)),
   (NewAddressFromString_coordinates parseDecimal unknownCoordinate (lit "1.2.3.4")
      (lit "ES;Spain;Madrid, Comunidad de;Madrid;40.4165;-3.70256;28223;Orange Espagne SA;orange.es")
      { neg := false, digits := 404165, scale := 4 } { neg := true, digits := 370256, scale := 5 }
      (by decide) (by decide) (by decide)).1.trans (congrArg Except.ok (by decide)),
   (NewAddressFromString_coordinates parseDecimal unknownCoordinate (lit "1.2.3.4")
      (lit "ES;Spain;Madrid, Comunidad de;Madrid;40.4165;-3.70256;28223;Orange Espagne SA;orange.es")
      { neg := false, digits := 404165, scale := 4 } { neg := true, digits := 370256, scale := 5 }
      (by decide) (by decide) (by decide)).2
      (lit "ES;Spain;Madrid, Comunidad de;Madrid;40.4165;-3.70256") (by decide)⟩

/-- C8: a record with at least 6 fields whose field 4 or field 5 does not
parse as a float fails with `ErrInvalidCacheEntry`; the result holds no
`Address`. -/
theorem NewAddressFromString_invalid {F : Type} (parseFloat : GoString → Option F)
    (unknown : F) (ip record : GoString)
    (hfields : 6 ≤ (Split record semicolon).length)
    (hbad : parseFloat ((Split record semicolon).getD 4 []) = none ∨
      parseFloat ((Split record semicolon).getD 5 []) = none) :
    NewAddressFromString parseFloat unknown ip record
      = Except.error ParseError.ErrInvalidCacheEntry := by
  have hn4 : ¬ (Split record semicolon).length < 4 := by omega
  simp only [NewAddressFromString, if_neg hn4, ge_iff_le, if_pos hfields]
  rcases hbad with h | h
  · rw [h]
  · rw [h]
    cases parseFloat ((Split record semicolon).getD 4 []) <;> rfl

/-- C8 on the record of the test whose longitude is `XXX`. -/
theorem NewAddressFromString_invalid_witness :
    parseDecimal (lit "XXX") = none ∧
    NewAddressFromString parseDecimal unknownCoordinate (lit "1.2.3.4")
        (lit "DE;Germany;Free and Hanseatic City of Hamburg;Hamburg;53.5736;XXX")
      = Except.error ParseError.ErrInvalidCacheEntry :=
  ⟨by decide,
   NewAddressFromString_invalid parseDecimal unknownCoordinate (lit "1.2.3.4")
     (lit "DE;Germany;Free and Hanseatic City of Hamburg;Hamburg;53.5736;XXX")
     (by decide) (Or.inr (by decide))⟩
end Weather
